import Mathlib

/-!
Verification development for the type-stub synthesizer `generate_stubs.py`
of the hifitime repository.

The Python source is shallowly embedded below.  Python `ast` nodes are
mirrored by the inductive types `PyAst` / `PyStmt`; the mutable
`types_to_import` set is threaded explicitly as a duplicate-free
`List String`; Python `ValueError`s become the `.error` branch of
`Except String`.  The reflection interface (`inspect.getmembers`,
`inspect.signature`, `inspect.getdoc`, `inspect.isroutine`, ...) is
modelled by explicit data (`FnInfo`, `ClsInfo`, `ModInfo`, `ClsValue`,
`ModMember`) holding exactly the facts the source queries.  String
processing is implemented over `List Char` so that every definition
reduces inside the kernel; the regular expressions of the source are
implemented character by character, following their exact shape.
-/

namespace GenerateStubs

/-! ### String helpers over `List Char`

Python string operations used by the source (`split`, `strip`,
`startswith`, `endswith`, slicing, `in`, `join`) are implemented here
over the character list underlying a `String`. -/

def chunksOn (c : Char) : List Char → List Char × List (List Char)
  | [] => ([], [])
  | x :: xs =>
    let (cur, rest) := chunksOn c xs
    if x = c then ([], cur :: rest) else (x :: cur, rest)

/-- Python `s.split(sep)` for a one-character separator: `"".split` is
`[""]`, separators at the ends produce empty chunks. -/
def strSplitOnChar (c : Char) (s : String) : List String :=
  let (cur, rest) := chunksOn c s.toList
  (cur :: rest).map String.mk

/-- Python `"\n".join(parts)`-style joining with a separator. -/
def joinSep (sep : String) : List String → String
  | [] => ""
  | [s] => s
  | s :: rest => s ++ sep ++ joinSep sep rest

/-- Python `".".join(element_path)`, used in every error message. -/
def dotJoin (parts : List String) : String := joinSep "." parts

/-- Python `"".join(parts)`. -/
def strConcat (parts : List String) : String := parts.foldl (· ++ ·) ""

/-- Python `s.strip()`. -/
def strTrim (s : String) : String :=
  String.mk (((s.toList.dropWhile Char.isWhitespace).reverse.dropWhile Char.isWhitespace).reverse)

/-- Python `s.startswith(p)`. -/
def strStartsWith (s p : String) : Bool := p.toList.isPrefixOf s.toList

/-- Python `s.endswith(p)`. -/
def strEndsWith (s p : String) : Bool := p.toList.isSuffixOf s.toList

/-- Python `s[:-n]` for `n > 0` (drops the last `n` characters; yields
the empty string when `n ≥ len(s)`). -/
def strDropRight (s : String) (n : Nat) : String :=
  String.mk (s.toList.take (s.toList.length - n))

def listContainsSub (pat : List Char) : List Char → Bool
  | [] => pat.isEmpty
  | c :: rest => pat.isPrefixOf (c :: rest) || listContainsSub pat rest

/-- Python `pat in s` (substring containment). -/
def strContainsSub (s pat : String) : Bool := listContainsSub pat.toList s.toList

/-- Drops leading literal spaces, the `" *"` of the source's regexes. -/
def dropSpaces : List Char → List Char
  | ' ' :: cs => dropSpaces cs
  | cs => cs

/-! ### The Python `ast` nodes produced by the source -/

/-- The expression nodes the source builds: `ast.Name`, `ast.Attribute`,
`ast.Subscript`, `ast.BinOp(op=BitOr)`, `ast.Constant` (with an opaque
rendering of the constant), the `__match_args__` tuple constant, the
two-element `ast.Tuple` used in the `__match_args__` annotation, and
`ast.Ellipsis`. -/
inductive PyAst where
  | name (id : String)
  | attribute (value : PyAst) (attr : String)
  | subscript (value : PyAst) (slice : PyAst)
  | binOp (left : PyAst) (right : PyAst)
  | constant (value : String)
  | constStrTuple (values : List String)
  | tuple2 (fst : PyAst) (snd : PyAst)
  | ellipsisLit
deriving DecidableEq

/-- An `ast.arg`: parameter name plus optional annotation. -/
structure PyArg where
  arg : String
  annotation : Option PyAst
deriving DecidableEq

/-- An `ast.arguments` node as the source constructs it.  The source
sometimes appends `None` entries to `defaults` / `kw_defaults`, so the
element type is `Option PyAst`. -/
structure PyArguments where
  posonlyargs : List PyArg := []
  args : List PyArg := []
  vararg : Option PyArg := none
  kwonlyargs : List PyArg := []
  kw_defaults : List (Option PyAst) := []
  kwarg : Option PyArg := none
  defaults : List (Option PyAst) := []
deriving DecidableEq

def emptyArguments : PyArguments := {}

/-- The statement nodes the source builds: `ast.Import`, `ast.ClassDef`
(bases and keywords are always empty in the source and are omitted),
`ast.FunctionDef`, `ast.AnnAssign` (`simple=1`; target is a plain name),
`ast.Expr` and a bare `ast.Ellipsis` placed in a body. -/
inductive PyStmt where
  | importStmt (moduleName : String)
  | classDef (name : String) (decorator_list : List PyAst) (body : List PyStmt)
  | functionDef (name : String) (args : PyArguments) (body : List PyStmt)
      (decorator_list : List PyAst) (returns : Option PyAst)
  | annAssign (target : String) ( annotation : PyAst) (value : Option PyAst)
  | exprStmt (value : PyAst)
  | ellipsisStmt

/-- An `ast.Module` (only its body matters to the source). -/
structure PyModule where
  body : List PyStmt

/-! ### The reflection interface consumed by the source -/

/-- One kind of `inspect.Parameter.kind`. -/
inductive ParamKind where
  | positionalOnly
  | positionalOrKeyword
  | varPositional
  | keywordOnly
  | varKeyword
deriving DecidableEq

/-- An `inspect.Parameter`: `default = none` models
`inspect.Parameter.empty`; a present default is an opaque literal. -/
structure Param where
  name : String
  kind : ParamKind
  default : Option String
deriving DecidableEq

/-- The reflected facts about one callable: `inspect.getdoc`,
`inspect.signature(...).parameters` (in order) and
`hasattr(fn_def, "__self__")`. -/
structure FnInfo where
  doc : Option String
  params : List Param
  isStatic : Bool
deriving DecidableEq

/-- The reflected value of one class member, as the classification
chain of `class_stubs` observes it.  `objectDefault` models a member
equal to `OBJECT_MEMBERS.get(member_name)` (including a `None` value
for a name outside `OBJECT_MEMBERS`, since `None == None` in Python);
`noneVal` models a `None` value for a name inside `OBJECT_MEMBERS`
whose default it does not equal. -/
inductive ClsValue where
  | objectDefault
  | dataDescriptor (doc : Option String)
  | routine (fn : FnInfo)
  | matchArgsVal (values : List String)
  | constVal (className : String)
  | noneVal
deriving DecidableEq

/-- The reflected facts about one class: its docstring, its constructor
signature (`none` models the `"no signature found"` `ValueError` of
`inspect.signature(cls_def)`), and its members in
`inspect.getmembers` enumeration order. -/
structure ClsInfo where
  doc : Option String
  ctorSig : Option (List Param)
  members : List (String × ClsValue)
deriving DecidableEq

/-- One top-level module member, pre-classified the way `module_stubs`
queries it (`inspect.isclass`, `inspect.isbuiltin`, anything else). -/
inductive ModMember where
  | cls (c : ClsInfo)
  | builtinFn (fn : FnInfo)
  | other
deriving DecidableEq

/-- A reflected module state: name plus members in enumeration order. -/
structure ModInfo where
  name : String
  members : List (String × ModMember)
deriving DecidableEq

/-! ### `path_to_type` and the builtin signature table -/

/-- Source `path_to_type`: a dotted path becomes a `Name` followed by a
chain of `Attribute` accesses.  (The source would crash on an empty
call; its callers never produce one, and the `[]` case is arbitrary.) -/
def path_to_type : List String → PyAst
  | [] => .name ""
  | e :: rest => rest.foldl PyAst.attribute (.name e)

def tyAny : PyAst := path_to_type ["typing", "Any"]

/-- Source `BUILTINS` table.  `none` models absence from the dict,
`some none` an entry whose value is `None`, `some (some (ps, r))` an
entry with a `(parameter types, return type)` tuple. -/
def BUILTINS (name : String) : Option (Option (List PyAst × PyAst)) :=
  match name with
  | "__annotations__" => some none
  | "__bool__" => some (some ([], path_to_type ["bool"]))
  | "__bytes__" => some (some ([], path_to_type ["bytes"]))
  | "__class__" => some none
  | "__contains__" => some (some ([tyAny], path_to_type ["bool"]))
  | "__del__" => some none
  | "__delattr__" => some (some ([path_to_type ["str"]], path_to_type ["None"]))
  | "__delitem__" => some (some ([tyAny], tyAny))
  | "__dict__" => some none
  | "__dir__" => some none
  | "__doc__" => some none
  | "__eq__" => some (some ([tyAny], path_to_type ["bool"]))
  | "__format__" => some (some ([path_to_type ["str"]], path_to_type ["str"]))
  | "__ge__" => some (some ([tyAny], path_to_type ["bool"]))
  | "__getattribute__" => some (some ([path_to_type ["str"]], tyAny))
  | "__getitem__" => some (some ([tyAny], tyAny))
  | "__gt__" => some (some ([tyAny], path_to_type ["bool"]))
  | "__hash__" => some (some ([], path_to_type ["int"]))
  | "__init__" => some (some ([], path_to_type ["None"]))
  | "__init_subclass__" => some none
  | "__iter__" => some (some ([], tyAny))
  | "__le__" => some (some ([tyAny], path_to_type ["bool"]))
  | "__len__" => some (some ([], path_to_type ["int"]))
  | "__lt__" => some (some ([tyAny], path_to_type ["bool"]))
  | "__module__" => some none
  | "__ne__" => some (some ([tyAny], path_to_type ["bool"]))
  | "__new__" => some none
  | "__next__" => some (some ([], tyAny))
  | "__int__" => some (some ([], path_to_type ["None"]))
  | "__reduce__" => some none
  | "__reduce_ex__" => some none
  | "__repr__" => some (some ([], path_to_type ["str"]))
  | "__setattr__" => some (some ([path_to_type ["str"], tyAny], path_to_type ["None"]))
  | "__setitem__" => some (some ([tyAny, tyAny], tyAny))
  | "__sizeof__" => some none
  | "__str__" => some (some ([], path_to_type ["str"]))
  | "__subclasshook__" => some none
  | _ => none

/-- The eight arithmetic special-method names short-circuited by
`arguments_stub` and `returns_stub`. -/
def arithNames : List String :=
  ["__add__", "__sub__", "__div__", "__mul__", "__radd__", "__rsub__", "__rdiv__", "__rmul__"]

/-! ### Error messages (the `ValueError` texts of the source) -/

def staleMsg (pname : String) (element_path : List String) : String :=
  "The parameter " ++ pname ++ " of " ++ dotJoin element_path ++
    " is defined in the documentation but not in the function signature"

def noTypeMsg (pname : String) (element_path : List String) : String :=
  "The parameter " ++ pname ++ " of " ++ dotJoin element_path ++
    " has no type definition in the function documentation"

def optNotFlaggedMsg (pname : String) (element_path : List String) : String :=
  "Parameter " ++ pname ++ " of " ++ dotJoin element_path ++
    " is optional according to the type but not flagged as such in the doc"

def optNoDefaultMsg (pname : String) (element_path : List String) : String :=
  "Parameter " ++ pname ++ " of " ++ dotJoin element_path ++
    " is optional according to the documentation but has no default value"

def noRtypeMsg (element_path : List String) : String :=
  "The return type of " ++ dotJoin element_path ++
    " has no type definition using :rtype: in the function documentation"

def multiRtypeMsg (element_path : List String) : String :=
  "Multiple return type annotations found with :rtype: for " ++ dotJoin element_path

def multiReturnMsg (element_path : List String) : String :=
  "Multiple return annotations found with :return: in " ++ dotJoin element_path ++
    " documentation"

def malformedOrMsg (type_str : String) (element_path : List String) : String :=
  "Not able to parse type '" ++ type_str ++ "' used by " ++ dotJoin element_path ++
    " (empty or malformed 'or' group)"

def emptyGroupMsg (type_str : String) (element_path : List String) : String :=
  "Not able to parse type '" ++ type_str ++ "' used by " ++ dotJoin element_path ++
    " (empty group after processing)"

def unhandledGroupMsg (type_str : String) (element_path : List String) : String :=
  "Not able to parse type '" ++ type_str ++ "' used by " ++ dotJoin element_path ++
    " (unhandled processed group structure)"

def unhandledJoinedMsg (type_str : String) (element_path : List String) : String :=
  "Not able to parse type '" ++ type_str ++ "' used by " ++ dotJoin element_path ++
    " (unhandled processed group structure after joining)"

def noElementsMsg (type_str : String) (element_path : List String) : String :=
  "Not able to parse type '" ++ type_str ++ "' used by " ++ dotJoin element_path ++
    " (no elements parsed for 'or' groups)"

def unparsableMsg (path : String) (element_path : List String) : String :=
  "Not able to parse type '" ++ path ++ "' used by " ++ dotJoin element_path

/-! ### The type-expression parser (`parse_type_to_ast`) -/

/-- Tokenizer character class of the source: letters and `.` extend the
current token; everything else is punctuation; a space is a separator. -/
def isTypeIdentChar (c : Char) : Bool :=
  ('a' ≤ c && c ≤ 'z') || ('A' ≤ c && c ≤ 'Z') || c = '.'

def tokenizeAux : List Char → List Char → List String
  | [], cur => if cur.isEmpty then [] else [String.mk cur.reverse]
  | c :: cs, cur =>
    if isTypeIdentChar c then tokenizeAux cs (c :: cur)
    else
      (if cur.isEmpty then [] else [String.mk cur.reverse]) ++
        (if c = ' ' then [] else [String.mk [c]]) ++ tokenizeAux cs []

/-- The tokenization loop of `parse_type_to_ast`. -/
def tokenize (type_str : String) : List String := tokenizeAux type_str.toList []

/-- A token tree: either a plain token or a bracketed group, mirroring
the nested list-of-tokens structure the source builds with its stack. -/
inductive Tok where
  | str (s : String)
  | group (g : List Tok)

def closeInto (g : List Tok) : List (List Tok) → List Tok
  | [] => g
  | p :: rest => closeInto (p ++ [.group g]) rest

/-- Closing every group still open at the end of the token stream.  In
the source the bracket stack aliases each child list into its parent at
`[`-time, so `stack[0]` already contains every open group with its
final contents. -/
def closeAll : List (List Tok) → List Tok
  | [] => []
  | g :: rest => closeInto g rest

/-- The bracket-structuring loop of `parse_type_to_ast`.  `none` models
the `IndexError` crash the source runs into after popping the bottom of
its stack on an unmatched `]`. -/
def buildTreeAux : List String → List (List Tok) → Option (List Tok)
  | [], stack => some (closeAll stack)
  | t :: ts, stack =>
    if t = "[" then buildTreeAux ts ([] :: stack)
    else if t = "]" then
      match stack with
      | _ :: [] => none
      | top :: parent :: rest => buildTreeAux ts ((parent ++ [.group top]) :: rest)
      | [] => none
    else
      match stack with
      | top :: rest => buildTreeAux ts ((top ++ [.str t]) :: rest)
      | [] => none

def isOrTok : Tok → Bool
  | .str s => s = "or"
  | .group _ => false

/-- The `or`-splitting loop of `parse_sequence`: groups of tokens
between occurrences of the literal token `or`. -/
def splitOr : List Tok → List (List Tok)
  | [] => [[]]
  | e :: rest =>
    if isOrTok e then [] :: splitOr rest
    else
      match splitOr rest with
      | g :: gs => (e :: g) :: gs
      | [] => [[e]]

def flushAcc (acc : List String) : List Tok :=
  if acc.isEmpty then [] else [.str (strConcat acc)]

def joinStrsAux : List String → List Tok → List Tok
  | acc, [] => flushAcc acc
  | acc, .str s :: rest => joinStrsAux (acc ++ [s]) rest
  | acc, .group g :: rest => flushAcc acc ++ .group g :: joinStrsAux [] rest

/-- The per-group preprocessing of `parse_sequence`: consecutive plain
tokens are concatenated into one string, nested groups are kept. -/
def joinStrs (l : List Tok) : List Tok := joinStrsAux [] l

/-- The set-`add` of `types_to_import` (kept duplicate-free, in first
insertion order; only the set of elements is observable, since the
emitter sorts it). -/
def addUnique (ti : List String) (s : String) : List String :=
  if s ∈ ti then ti else ti ++ [s]

/-- Source `concatenated_path_to_type`: split a dotted name, reject
empty segments, register the prefix of a multi-segment path as a
required import. -/
def concatenated_path_to_type (path : String) (element_path : List String)
    (ti : List String) : Except String (PyAst × List String) :=
  let parts := strSplitOnChar '.' path
  if parts.any (fun p => p = "") then
    .error (unparsableMsg path element_path)
  else
    let ti' := if parts.length > 1 then addUnique ti (dotJoin parts.dropLast) else ti
    .ok (path_to_type parts, ti')

/-- The per-group classification loop inside `parse_sequence`, with the
recursive call on nested groups abstracted as the parameter `ps` (it is
instantiated with `parse_sequence` at one smaller fuel). -/
def parseGroupsF (ps : List Tok → List String → Except String (PyAst × List String))
    (type_str : String) (element_path : List String) :
    List (List Tok) → List String → Except String (List PyAst × List String)
  | [], ti => .ok ([], ti)
  | gi :: rest, ti =>
    match joinStrs gi with
    | [] => .error (emptyGroupMsg type_str element_path)
    | [.str s] =>
      match concatenated_path_to_type s element_path ti with
      | .error e => .error e
      | .ok (a, ti₁) =>
        match parseGroupsF ps type_str element_path rest ti₁ with
        | .error e => .error e
        | .ok (as, ti₂) => .ok (a :: as, ti₂)
    | [.str s, .group g] =>
      match ps g ti with
      | .error e => .error e
      | .ok (sl, ti₁) =>
        match concatenated_path_to_type s element_path ti₁ with
        | .error e => .error e
        | .ok (v, ti₂) =>
          match parseGroupsF ps type_str element_path rest ti₂ with
          | .error e => .error e
          | .ok (as, ti₃) => .ok (.subscript v sl :: as, ti₃)
    | [.group _] => .error (unhandledGroupMsg type_str element_path)
    | _ => .error (unhandledJoinedMsg type_str element_path)

/-- Source `parse_sequence` (the inner function of `parse_type_to_ast`),
with a fuel parameter bounding the bracket-nesting depth; the wrapper
`parse_type_to_ast` always supplies sufficient fuel, so the fuel-0
branch is never reached on inputs the source terminates on.  Splits on
`or`, rejects empty alternatives, classifies each group, and folds the
alternatives left-to-right with `BinOp(BitOr)`. -/
def parse_sequence : Nat → String → List String → List Tok → List String →
    Except String (PyAst × List String)
  | 0, _, _, _, _ => .error "type expression recursion limit exceeded"
  | fuel + 1, type_str, element_path, seq, ti =>
    let or_groups := splitOr seq
    if or_groups.isEmpty || or_groups.any (fun g => g.isEmpty) then
      .error (malformedOrMsg type_str element_path)
    else
      match parseGroupsF (parse_sequence fuel type_str element_path) type_str element_path
          or_groups ti with
      | .error e => .error e
      | .ok ([], _) => .error (noElementsMsg type_str element_path)
      | .ok (e :: es, ti') => .ok (es.foldl PyAst.binOp e, ti')

/-- Source `parse_type_to_ast`: tokenize, build the bracket tree, parse.
The fuel `tokens.length + 1` strictly exceeds the bracket-nesting depth
(each nesting level consumes at least one `[` token), so it never runs
out. -/
def parse_type_to_ast (type_str : String) (element_path : List String)
    (ti : List String) : Except String (PyAst × List String) :=
  let tokens := tokenize type_str
  match buildTreeAux tokens [[]] with
  | none => .error (unparsableMsg type_str element_path)
  | some tree => parse_sequence (tokens.length + 1) type_str element_path tree ti

/-- Source `convert_type_from_doc`. -/
def convert_type_from_doc (type_str : String) (element_path : List String)
    (ti : List String) : Except String (PyAst × List String) :=
  parse_type_to_ast (strTrim type_str) element_path ti

/-! ### Documentation annotation extraction

The source uses `re.findall` with `re.MULTILINE` on three patterns; all
three anchor at both ends of a line, so they are implemented as
per-line matchers over the `\n`-split documentation string. -/

/-- A character of the class `[a-zA-Z0-9_]`. -/
def isWordChar (c : Char) : Bool := c.isAlphanum || c = '_'

/-- One line against `^ *:type *([a-zA-Z0-9_]+): ([^\n]*) *$`: returns
the captured parameter name and type text (the text keeps trailing
spaces, exactly as the greedy `[^\n]*` of the source captures them). -/
def matchTypeLine (line : String) : Option (String × String) :=
  let cs := dropSpaces line.toList
  if (":type".toList).isPrefixOf cs then
    let cs := dropSpaces (cs.drop 5)
    let nameCs := cs.takeWhile isWordChar
    if nameCs.isEmpty then none
    else
      match cs.dropWhile isWordChar with
      | ':' :: ' ' :: text => some (String.mk nameCs, String.mk text)
      | _ => none
  else none

/-- One line against `^ *:rtype: *([^\n]*) *$`. -/
def matchRtypeLine (line : String) : Option String :=
  let cs := dropSpaces line.toList
  if (":rtype:".toList).isPrefixOf cs then some (String.mk (dropSpaces (cs.drop 7)))
  else none

/-- One line against `^ *:return: *(.*) *$`. -/
def matchReturnLine (line : String) : Option String :=
  let cs := dropSpaces line.toList
  if (":return:".toList).isPrefixOf cs then some (String.mk (dropSpaces (cs.drop 8)))
  else none

def strLines (doc : String) : List String := strSplitOnChar '\n' doc

/-- All `:type name: text` annotations of a documentation string, top to
bottom (the `re.findall` at the heart of `arguments_stub`). -/
def typeLines (doc : String) : List (String × String) :=
  (strLines doc).filterMap matchTypeLine

/-- All `:rtype:` annotations of a documentation string. -/
def rtypeLines (doc : String) : List String :=
  (strLines doc).filterMap matchRtypeLine

/-- All `:return:` annotations of a documentation string. -/
def returnLines (doc : String) : List String :=
  (strLines doc).filterMap matchReturnLine

/-- Source `build_doc_comment`: strip each line, drop `:type`/`:rtype`
lines, re-join, strip; an empty result yields no node. -/
def build_doc_comment (doc : String) : Option PyStmt :=
  let lines := (strLines doc).map strTrim
  let clean := lines.filter
    (fun l => !(strStartsWith l ":type" || strStartsWith l ":rtype"))
  let text := strTrim (joinSep "\n" clean)
  if text = "" then none else some (.exprStmt (.constant text))

/-! ### `returns_stub` and `arguments_stub` -/

/-- `element_path[1]` (every caller passes a path of length two or
three, so the default is never used). -/
def elemPath1 (element_path : List String) : String := element_path.getD 1 ""

/-- Source `returns_stub`: error-class and arithmetic exemptions first,
then the `:rtype:` lines, then the builtin-table fallback. -/
def returns_stub (callable_name : String) (doc : String) (element_path : List String)
    (ti : List String) : Except String (Option PyAst × List String) :=
  if strContainsSub (elemPath1 element_path) "Error" then .ok (none, ti)
  else if callable_name ∈ arithNames then .ok (none, ti)
  else
    match rtypeLines doc with
    | [] =>
      match BUILTINS callable_name with
      | some (some (_, rt)) => .ok (some rt, ti)
      | _ => .error (noRtypeMsg element_path)
    | [t] =>
      match convert_type_from_doc t element_path ti with
      | .error e => .error e
      | .ok (a, ti') => .ok (some a, ti')
    | _ => .error (multiRtypeMsg element_path)

def selfParam : Param := ⟨"self", .positionalOnly, none⟩

/-- The dict merge `{"self": Parameter("self", POSITIONAL_ONLY),
**real_parameters}` performed for `__init__`: `self` goes first; if the
reflected signature already had a `self` entry, its value wins but the
first-insertion position is kept. -/
def initMergeParams (rp : List Param) : List Param :=
  match rp.find? (fun p => p.name == "self") with
  | some p => p :: rp.filter (fun q => q.name ≠ "self")
  | none => selfParam :: rp

/-- The dict assignment `parsed_param_types[name] = t`: replace in
place, or append a new key. -/
def assocSet (m : List (String × PyAst)) (k : String) (v : PyAst) :
    List (String × PyAst) :=
  match m with
  | [] => [(k, v)]
  | (k', v') :: rest => if k' = k then (k, v) :: rest else (k', v') :: assocSet rest k v

/-- The `:type` processing loop of `arguments_stub`: stale-name check,
`", optional"` suffix handling, then the type-expression parser. -/
def docTypesLoop (element_path : List String) (param_names : List String) :
    List (String × String) → List (String × PyAst) → List String → List String →
    Except String (List (String × PyAst) × List String × List String)
  | [], parsed, opts, ti => .ok (parsed, opts, ti)
  | (pname, ptext) :: rest, parsed, opts, ti =>
    if pname ∈ param_names then
      let (opts', t) :=
        if strEndsWith ptext ", optional" then (addUnique opts pname, strDropRight ptext 10)
        else (opts, ptext)
      match convert_type_from_doc t element_path ti with
      | .error e => .error e
      | .ok (a, ti') =>
        docTypesLoop element_path param_names rest (assocSet parsed pname a) opts' ti'
    else .error (staleMsg pname element_path)

/-- Accumulator of the parameter loop of `arguments_stub`. -/
structure ArgsAcc where
  args : List PyArg := []
  vararg : Option PyArg := none
  kwonlyargs : List PyArg := []
  kw_defaults : List (Option PyAst) := []
  kwarg : Option PyArg := none
  defaults : List (Option PyAst) := []
deriving DecidableEq

/-- The kind dispatch at the end of the parameter loop.  For
positional-only parameters the source appends to `args` and discards
the default (its `posonlyargs`/`defaults` lines are commented out). -/
def dispatchParam (acc : ArgsAcc) (p : Param) (param_ast : PyArg)
    (default_ast : Option PyAst) : ArgsAcc :=
  match p.kind with
  | .positionalOnly => { acc with args := acc.args ++ [param_ast] }
  | .positionalOrKeyword =>
    { acc with args := acc.args ++ [param_ast], defaults := acc.defaults ++ [default_ast] }
  | .varPositional => { acc with vararg := some param_ast }
  | .keywordOnly =>
    { acc with kwonlyargs := acc.kwonlyargs ++ [param_ast],
               kw_defaults := acc.kw_defaults ++ [default_ast] }
  | .varKeyword => { acc with kwarg := some param_ast }

/-- The parameter loop of `arguments_stub`: missing-type check, then
the two optionality checks, then the kind dispatch.  The source's local
`param_ast = ast.arg(param.name, parsed_param_types.get(param.name))`
is written inline at its two use sites. -/
def processParams (element_path : List String) (parsed : List (String × PyAst))
    (opts : List String) : List Param → ArgsAcc → Except String ArgsAcc
  | [], acc => .ok acc
  | p :: rest, acc =>
    if p.name ≠ "self" ∧ List.lookup p.name parsed = none then
      .error (noTypeMsg p.name element_path)
    else
      match p.default with
      | some d =>
        if p.name ∈ opts then
          processParams element_path parsed opts rest
            (dispatchParam acc p ⟨p.name, List.lookup p.name parsed⟩ (some (.constant d)))
        else .error (optNotFlaggedMsg p.name element_path)
      | none =>
        if p.name ∈ opts then .error (optNoDefaultMsg p.name element_path)
        else
          processParams element_path parsed opts rest
            (dispatchParam acc p ⟨p.name, List.lookup p.name parsed⟩ none)

/-- The common tail of `arguments_stub` after the Error/arithmetic
short-circuits: documentation loop then parameter loop. -/
def argumentsCore (doc : String) (element_path : List String)
    (real_parameters : List Param) (parsed0 : List (String × PyAst))
    (ti : List String) : Except String (PyArguments × List String) :=
  match docTypesLoop element_path (real_parameters.map (·.name)) (typeLines doc)
      parsed0 [] ti with
  | .error e => .error e
  | .ok (parsed, opts, ti') =>
    match processParams element_path parsed opts real_parameters {} with
    | .error e => .error e
    | .ok acc =>
      .ok ({ posonlyargs := [], args := acc.args, vararg := acc.vararg,
             kwonlyargs := acc.kwonlyargs, kw_defaults := acc.kw_defaults,
             kwarg := acc.kwarg, defaults := acc.defaults }, ti')

/-- The `param_names` trimming before the builtin zip: drop a leading
`self`. -/
def dropSelfHead : List String → List String
  | [] => []
  | n :: rest => if n = "self" then rest else n :: rest

/-- The `real_parameters` mapping of `arguments_stub`: the reflected
signature, with `self` prepended for `__init__`. -/
def mergedParams (callable_name : String) (real_params : List Param) : List Param :=
  if callable_name = "__init__" then initMergeParams real_params else real_params

/-- The initial `parsed_param_types` dict: for a name with a tuple
entry in the builtin table, the non-`self` parameter names zipped with
the table's parameter types; otherwise empty. -/
def builtinParsed (callable_name : String) (real_parameters : List Param) :
    List (String × PyAst) :=
  match BUILTINS callable_name with
  | some (some bt) => List.zip (dropSelfHead (real_parameters.map (·.name))) bt.1
  | _ => []

/-- Source `arguments_stub`. -/
def arguments_stub (callable_name : String) (real_params : List Param) (doc : String)
    (element_path : List String) (ti : List String) :
    Except String (PyArguments × List String) :=
  if strContainsSub (elemPath1 element_path) "Error" then
    .ok (emptyArguments, ti)
  else
    let real_parameters := mergedParams callable_name real_params
    match BUILTINS callable_name with
    | some (some _) =>
      argumentsCore doc element_path real_parameters
        (builtinParsed callable_name real_parameters) ti
    | _ =>
      if callable_name ∈ arithNames then .ok (emptyArguments, ti)
      else argumentsCore doc element_path real_parameters [] ti

/-! ### `function_stub`, `data_descriptor_stub`, `class_stubs` -/

/-- Python truthiness of an optional string (`if doc`). -/
def pyTruthy : Option String → Bool
  | none => false
  | some s => !(s = "")

/-- Source `function_stub`: doc comment body, `staticmethod` decorator
for bound builtins inside a class, arguments, then the return type —
which is computed only when the documentation string is truthy. -/
def function_stub (fn_name : String) (fn : FnInfo) (element_path : List String)
    (ti : List String) (in_class : Bool) : Except String (PyStmt × List String) :=
  let body : List PyStmt :=
    match fn.doc with
    | some d =>
      match build_doc_comment d with
      | some e => [e]
      | none => []
    | none => []
  let decorator_list : List PyAst :=
    if in_class && fn.isStatic then [.name "staticmethod"] else []
  match arguments_stub fn_name fn.params (fn.doc.getD "") element_path ti with
  | .error e => .error e
  | .ok (args, ti₁) =>
    match (if pyTruthy fn.doc then
             returns_stub fn_name (fn.doc.getD "") element_path ti₁
           else .ok (none, ti₁)) with
    | .error e => .error e
    | .ok (returns, ti₂) =>
      .ok (.functionDef fn_name args (if body.isEmpty then [.ellipsisStmt] else body)
            decorator_list returns, ti₂)

/-- Source `data_descriptor_stub`: with documentation, the annotation
comes from `returns_stub` and a single `:return:` line becomes a
trailing doc comment; more than one `:return:` line is fatal. -/
def data_descriptor_stub (data_desc_name : String) (doc : Option String)
    (element_path : List String) (ti : List String) :
    Except String (List PyStmt × List String) :=
  match doc with
  | none => .ok ([.annAssign data_desc_name tyAny none], ti)
  | some d =>
    match returns_stub data_desc_name d element_path ti with
    | .error e => .error e
    | .ok (ann, ti') =>
      match returnLines d with
      | [] => .ok ([.annAssign data_desc_name (ann.getD tyAny) none], ti')
      | [t] =>
        let dc := if t = "" then none else build_doc_comment t
        .ok (.annAssign data_desc_name (ann.getD tyAny) none :: dc.toList, ti')
      | _ => .error (multiReturnMsg element_path)

/-- Accumulators of the member loop of `class_stubs`. -/
structure ClsAcc where
  attributes : List PyStmt := []
  methods : List PyStmt := []
  magic : List PyStmt := []
  constants : List PyStmt := []

def isObjectDefault : ClsValue → Bool
  | .objectDefault => true
  | _ => false

/-- `BUILTINS.get(member_name, ()) is None`. -/
def builtinIsNone (name : String) : Bool :=
  match BUILTINS name with
  | some none => true
  | _ => false

def matchArgsAnnotation : PyAst :=
  .subscript (path_to_type ["tuple"]) (.tuple2 (path_to_type ["str"]) .ellipsisLit)

/-- The member loop of `class_stubs`: the `__init__` special case for
non-Error classes (skipped when the class exposes no signature), the
object-default / builtin-`None` skip, then data descriptors, routines,
`__match_args__`, other non-`None` values as constants, and a warning
skip for everything else. -/
def classMembersLoop (cls_name : String) (cls : ClsInfo) (element_path : List String) :
    List (String × ClsValue) → ClsAcc → List String → Except String (ClsAcc × List String)
  | [], acc, ti => .ok (acc, ti)
  | (member_name, v) :: rest, acc, ti =>
    let current_element_path := element_path ++ [member_name]
    if member_name = "__init__" ∧ ¬ strContainsSub cls_name "Error" then
      match cls.ctorSig with
      | none => classMembersLoop cls_name cls element_path rest acc ti
      | some sig =>
        match function_stub member_name ⟨cls.doc, sig, false⟩ current_element_path ti true with
        | .error e => .error e
        | .ok (st, ti') =>
          classMembersLoop cls_name cls element_path rest
            { acc with methods := st :: acc.methods } ti'
    else if isObjectDefault v || builtinIsNone member_name then
      classMembersLoop cls_name cls element_path rest acc ti
    else
      match v with
      | .dataDescriptor d =>
        match data_descriptor_stub member_name d current_element_path ti with
        | .error e => .error e
        | .ok (sts, ti') =>
          classMembersLoop cls_name cls element_path rest
            { acc with attributes := acc.attributes ++ sts } ti'
      | .routine fn =>
        match function_stub member_name fn current_element_path ti true with
        | .error e => .error e
        | .ok (st, ti') =>
          if strStartsWith member_name "__" then
            classMembersLoop cls_name cls element_path rest
              { acc with magic := acc.magic ++ [st] } ti'
          else
            classMembersLoop cls_name cls element_path rest
              { acc with methods := acc.methods ++ [st] } ti'
      | .matchArgsVal vs =>
        if member_name = "__match_args__" then
          classMembersLoop cls_name cls element_path rest
            { acc with constants := acc.constants ++
                [.annAssign member_name matchArgsAnnotation (some (.constStrTuple vs))] } ti
        else
          match concatenated_path_to_type "tuple" element_path ti with
          | .error e => .error e
          | .ok (ann, ti') =>
            classMembersLoop cls_name cls element_path rest
              { acc with constants := acc.constants ++
                  [.annAssign member_name ann (some .ellipsisLit)] } ti'
      | .constVal className =>
        match concatenated_path_to_type className element_path ti with
        | .error e => .error e
        | .ok (ann, ti') =>
          classMembersLoop cls_name cls element_path rest
            { acc with constants := acc.constants ++
                [.annAssign member_name ann (some .ellipsisLit)] } ti'
      | .noneVal => classMembersLoop cls_name cls element_path rest acc ti
      | .objectDefault => classMembersLoop cls_name cls element_path rest acc ti

def typingFinal : PyAst := path_to_type ["typing", "final"]

/-- The class docstring comment: built only when the docstring is
truthy (`build_doc_comment(doc) if doc else None`). -/
def docCommentOpt (doc : Option String) : Option PyStmt :=
  match doc with
  | some d => if d = "" then none else build_doc_comment d
  | none => none

/-- Source `class_stubs`: run the member loop, then assemble the body
as doc comment, attributes, methods, magic methods, constants — with an
`Ellipsis` placeholder when that body is empty — decorated with
`typing.final`. -/
def class_stubs (cls_name : String) (cls : ClsInfo) (element_path : List String)
    (ti : List String) : Except String (PyStmt × List String) :=
  match classMembersLoop cls_name cls element_path cls.members {} ti with
  | .error e => .error e
  | .ok (acc, ti') =>
    let body := (docCommentOpt cls.doc).toList ++ acc.attributes ++ acc.methods ++
      acc.magic ++ acc.constants
    .ok (.classDef cls_name [typingFinal] (if body.isEmpty then [.ellipsisStmt] else body), ti')

/-! ### `module_stubs` and the sorted import rendering -/

/-- Python string comparison (lexicographic on code points) as a
boolean, used to model `sorted(types_to_import)`. -/
def charListLe : List Char → List Char → Bool
  | [], _ => true
  | _ :: _, [] => false
  | a :: as, b :: bs => if a < b then true else if b < a then false else charListLe as bs

def strLeB (a b : String) : Bool := charListLe a.toList b.toList

def insortStr (x : String) : List String → List String
  | [] => [x]
  | y :: ys => if strLeB x y then x :: y :: ys else y :: insortStr x ys

/-- `sorted(...)` on a list of strings (insertion sort; the source
sorts a set, so stability is irrelevant). -/
def sortStrings : List String → List String
  | [] => []
  | x :: xs => insortStr x (sortStrings xs)

/-- The member loop of `module_stubs`: skip dunder names and the
configured `DoraStatus` prefix, recurse into classes, stub builtin
functions, warn-and-skip everything else. -/
def moduleMembersLoop (modName : String) :
    List (String × ModMember) → List PyStmt → List PyStmt → List String →
    Except String (List PyStmt × List PyStmt × List String)
  | [], classes, functions, ti => .ok (classes, functions, ti)
  | (member_name, v) :: rest, classes, functions, ti =>
    if strStartsWith member_name "__" then
      moduleMembersLoop modName rest classes functions ti
    else if strStartsWith member_name "DoraStatus" then
      moduleMembersLoop modName rest classes functions ti
    else
      match v with
      | .cls c =>
        match class_stubs member_name c [modName, member_name] ti with
        | .error e => .error e
        | .ok (st, ti') => moduleMembersLoop modName rest (classes ++ [st]) functions ti'
      | .builtinFn fn =>
        match function_stub member_name fn [modName, member_name] ti false with
        | .error e => .error e
        | .ok (st, ti') => moduleMembersLoop modName rest classes (functions ++ [st]) ti'
      | .other => moduleMembersLoop modName rest classes functions ti

/-- Source `module_stubs`: the import set starts at `{"typing"}`; the
body is the sorted imports, then the classes, then the functions, both
in reflection enumeration order. -/
def module_stubs (m : ModInfo) : Except String PyModule :=
  match moduleMembersLoop m.name m.members [] [] ["typing"] with
  | .error e => .error e
  | .ok (classes, functions, ti) =>
    .ok ⟨(sortStrings ti).map .importStmt ++ classes ++ functions⟩

/-! ### Derived observations used by the theorem statements -/

/-- A parameter name is documented optional when some `:type` line for
it carries the `", optional"` suffix. -/
def optionalNames (doc : String) : List String :=
  (typeLines doc).filterMap
    (fun nt => if strEndsWith nt.2 ", optional" then some nt.1 else none)

/-- The name a statement declares (empty for placeholders). -/
def stubName : PyStmt → String
  | .importStmt n => n
  | .classDef n _ _ => n
  | .functionDef n _ _ _ _ => n
  | .annAssign n _ _ => n
  | .exprStmt _ => ""
  | .ellipsisStmt => ""

/-- Whether a top-level member name survives the skip filters of
`module_stubs`. -/
def keptModuleName (n : String) : Bool :=
  !(strStartsWith n "__" || strStartsWith n "DoraStatus")

def keptClassNames (mems : List (String × ModMember)) : List String :=
  mems.filterMap
    (fun nv =>
      match nv with
      | (n, .cls _) => if keptModuleName n then some n else none
      | _ => none)

def keptFunctionNames (mems : List (String × ModMember)) : List String :=
  mems.filterMap
    (fun nv =>
      match nv with
      | (n, .builtinFn _) => if keptModuleName n then some n else none
      | _ => none)

/-- The class names of a reflected module that `module_stubs` emits, in
enumeration order. -/
def includedClassNames (m : ModInfo) : List String := keptClassNames m.members

/-- The builtin-function names of a reflected module that
`module_stubs` emits, in enumeration order. -/
def includedFunctionNames (m : ModInfo) : List String := keptFunctionNames m.members

/-- Statement shapes of the four sections of a class body: attribute
stubs are annotated assignments possibly followed by a doc comment. -/
def isAttrStmt : PyStmt → Bool
  | .annAssign _ _ _ => true
  | .exprStmt _ => true
  | _ => false

/-- Method stubs are function definitions for `__init__` or for a
non-dunder name. -/
def isMethodStmt : PyStmt → Bool
  | .functionDef n _ _ _ _ => n = "__init__" || !strStartsWith n "__"
  | _ => false

/-- Special/operator-method stubs are function definitions for dunder
names. -/
def isMagicStmt : PyStmt → Bool
  | .functionDef n _ _ _ _ => strStartsWith n "__"
  | _ => false

/-- Constant stubs are annotated assignments. -/
def isConstStmt : PyStmt → Bool
  | .annAssign _ _ _ => true
  | _ => false

/-- The arguments of an emitted function stub. -/
def stmtArgs : PyStmt → PyArguments
  | .functionDef _ a _ _ _ => a
  | _ => emptyArguments

/-- The return annotation of an emitted function stub. -/
def stmtReturns : PyStmt → Option PyAst
  | .functionDef _ _ _ _ r => r
  | _ => none

/-! ## Theorems -/

/-! ### Lemmas about the `or`-split -/

theorem splitOr_ne_nil (l : List Tok) : splitOr l ≠ [] := by
  induction l with
  | nil => simp [splitOr]
  | cons e rest ih =>
    unfold splitOr
    by_cases h : isOrTok e = true
    · simp [h]
    · simp only [h]
      cases hs : splitOr rest with
      | nil => simp
      | cons g gs => simp

theorem splitOr_append_or (e : Tok) (he : isOrTok e = true) :
    ∀ l : List Tok, splitOr (l ++ [e]) = splitOr l ++ [[]] := by
  intro l
  induction l with
  | nil => simp [splitOr, he]
  | cons x rest ih =>
    by_cases hx : isOrTok x = true
    · simp [splitOr, hx, ih]
    · have hne := splitOr_ne_nil rest
      cases hs : splitOr rest with
      | nil => exact absurd hs hne
      | cons g gs => simp [splitOr, hx, ih, hs]

theorem splitOr_doubled_tail (e₁ e₂ : Tok) (l₂ : List Tok)
    (h₁ : isOrTok e₁ = true) (h₂ : isOrTok e₂ = true) :
    ∀ l₁ : List Tok, [] ∈ (splitOr (l₁ ++ e₁ :: e₂ :: l₂)).tail := by
  intro l₁
  induction l₁ with
  | nil => simp [splitOr, h₁, h₂]
  | cons x rest ih =>
    by_cases hx : isOrTok x = true
    · have hmem : [] ∈ splitOr (rest ++ e₁ :: e₂ :: l₂) := List.mem_of_mem_tail ih
      simpa [splitOr, hx] using hmem
    · have hne := splitOr_ne_nil (rest ++ e₁ :: e₂ :: l₂)
      cases hs : splitOr (rest ++ e₁ :: e₂ :: l₂) with
      | nil => exact absurd hs hne
      | cons g gs =>
        rw [hs] at ih
        simpa [splitOr, hx, hs] using ih

/-! ### C8 -/

/-- C8: in the type-expression parser, splitting a token group on the
literal token `or` raises a parse error whenever any resulting
alternative is empty — for a leading, trailing or doubled `or`, and for
an empty overall sequence. -/
theorem c8_empty_alternative_is_error (fuel : Nat) (type_str : String)
    (element_path : List String) (seq : List Tok) (ti : List String)
    (h : seq = [] ∨
         (∃ e rest, seq = e :: rest ∧ isOrTok e = true) ∨
         (∃ l e, seq = l ++ [e] ∧ isOrTok e = true) ∨
         (∃ l₁ e₁ e₂ l₂, seq = l₁ ++ e₁ :: e₂ :: l₂ ∧ isOrTok e₁ = true ∧ isOrTok e₂ = true)) :
    parse_sequence (fuel + 1) type_str element_path seq ti =
      .error (malformedOrMsg type_str element_path) := by
  have hempty : (splitOr seq).any (fun g => g.isEmpty) = true := by
    rcases h with rfl | ⟨e, rest, rfl, he⟩ | ⟨l, e, rfl, he⟩ | ⟨l₁, e₁, e₂, l₂, rfl, h₁, h₂⟩
    · simp [splitOr]
    · simp [splitOr, he]
    · rw [splitOr_append_or e he l]
      simp
    · have hmem := List.mem_of_mem_tail (splitOr_doubled_tail e₁ e₂ l₂ h₁ h₂ l₁)
      rw [List.any_eq_true]
      exact ⟨[], hmem, rfl⟩
  unfold parse_sequence
  simp [hempty]

theorem c8_witness :
    parse_sequence 1 "or" ["hifitime", "Duration", "f"] [Tok.str "or"] [] =
      .error (malformedOrMsg "or" ["hifitime", "Duration", "f"]) :=
  c8_empty_alternative_is_error 0 "or" ["hifitime", "Duration", "f"] [Tok.str "or"] []
    (Or.inr (Or.inl ⟨Tok.str "or", [], rfl, rfl⟩))

/-! ### C2 -/

/-- C2: the hint string `"int or float"` parses to a union
(`BinOp(BitOr)`) of exactly two plain references, `int` on the left and
`float` on the right, without touching the import set; the hint string
`"typing.List[int]"` parses to a single reference with one generic
argument while adding `"typing"` to the shared required-imports set. -/
theorem c2_type_hint_parsing :
    parse_type_to_ast "int or float" ["hifitime", "Duration", "total_seconds"] [] =
      .ok (.binOp (.name "int") (.name "float"), []) ∧
    parse_type_to_ast "typing.List[int]" ["hifitime", "Duration", "leap_seconds"] [] =
      .ok (.subscript (.attribute (.name "typing") "List") (.name "int"), ["typing"]) :=
  ⟨rfl, rfl⟩

/-! ### C4 -/

/-- C4: for a class whose name contains the substring `"Error"`, an
undocumented constructor with undocumented parameters (of any shape)
synthesizes successfully, with an empty parameter list and no return
type annotation, instead of raising a missing-type-documentation
error. -/
theorem c4_error_class_constructor (cls_name modName : String) (params : List Param)
    (ti : List String) (h : strContainsSub cls_name "Error" = true) :
    function_stub "__init__" ⟨none, params, false⟩ [modName, cls_name, "__init__"] ti true =
      .ok (.functionDef "__init__" emptyArguments [.ellipsisStmt] [] none, ti) := by
  have ha : arguments_stub "__init__" params "" [modName, cls_name, "__init__"] ti =
      .ok (emptyArguments, ti) := by
    unfold arguments_stub
    simp [elemPath1, h]
  unfold function_stub
  simp [ha, pyTruthy]

theorem c4_witness :
    function_stub "__init__" ⟨none, [⟨"x", .positionalOrKeyword, none⟩], false⟩
      ["hifitime", "HifitimeError", "__init__"] [] true =
      .ok (.functionDef "__init__" emptyArguments [.ellipsisStmt] [] none, []) :=
  c4_error_class_constructor "HifitimeError" "hifitime" [⟨"x", .positionalOrKeyword, none⟩] []
    (by decide)

/-! ### C10 -/

/-- C10: for a callable named `__add__`, `__sub__`, `__div__`,
`__mul__`, `__radd__`, `__rsub__`, `__rdiv__` or `__rmul__`, the
emitted stub always succeeds with an empty parameter list and no return
type annotation, regardless of the documentation (including any `:type`
or `:rtype` lines) and of the reflected signature, and it leaves the
set of required imports unchanged. -/
theorem c10_arith_methods_untyped (fn_name : String) (fn : FnInfo)
    (element_path ti : List String) (in_class : Bool)
    (hmem : fn_name ∈ arithNames) :
    (function_stub fn_name fn element_path ti in_class).map
        (fun r => (stubName r.1, stmtArgs r.1, stmtReturns r.1, r.2)) =
      .ok (fn_name, emptyArguments, none, ti) := by
  have hB : BUILTINS fn_name = none := by fin_cases hmem <;> rfl
  have hA : arguments_stub fn_name fn.params (fn.doc.getD "") element_path ti =
      .ok (emptyArguments, ti) := by
    unfold arguments_stub
    by_cases hE : strContainsSub (elemPath1 element_path) "Error" = true
    · simp [hE]
    · simp [hE, hB, hmem]
  have hR : returns_stub fn_name (fn.doc.getD "") element_path ti = .ok (none, ti) := by
    unfold returns_stub
    by_cases hE : strContainsSub (elemPath1 element_path) "Error" = true
    · simp [hE]
    · simp [hE, hmem]
  unfold function_stub
  by_cases hD : pyTruthy fn.doc = true
  · simp [hA, hD, hR, Except.map, stubName, stmtArgs, stmtReturns]
  · simp [hA, hD, Except.map, stubName, stmtArgs, stmtReturns]

theorem c10_witness :
    (function_stub "__add__"
        ⟨some ":type other: hifitime.Duration\n:rtype: hifitime.Duration",
          [⟨"self", .positionalOrKeyword, none⟩, ⟨"other", .positionalOrKeyword, none⟩], false⟩
        ["hifitime", "Duration", "__add__"] [] true).map
        (fun r => (stubName r.1, stmtArgs r.1, stmtReturns r.1, r.2)) =
      .ok ("__add__", emptyArguments, none, []) :=
  c10_arith_methods_untyped "__add__"
    ⟨some ":type other: hifitime.Duration\n:rtype: hifitime.Duration",
      [⟨"self", .positionalOrKeyword, none⟩, ⟨"other", .positionalOrKeyword, none⟩], false⟩
    ["hifitime", "Duration", "__add__"] [] true (by decide)

/-! ### C7 -/

/-- C7 (counterexample): for the exempt callable name `__add__`, a
documentation string containing two `:rtype:` lines does not raise the
ambiguous-return error: synthesis succeeds (with no return type), so
the claim fails as universally stated over callables. -/
theorem c7_counterexample :
    rtypeLines ":rtype: int\n:rtype: str" = ["int", "str"] ∧
    function_stub "__add__" ⟨some ":rtype: int\n:rtype: str", [], false⟩
      ["hifitime", "Duration", "__add__"] [] true =
      .ok (.functionDef "__add__" emptyArguments [.ellipsisStmt] [] none, []) :=
  ⟨rfl, rfl⟩

/-- C7 (amended): for a callable that is not exempt (its path's second
element does not contain `"Error"` and its name is not one of the eight
arithmetic special methods), a truthy documentation string containing
more than one `:rtype:` line makes synthesis fail with the
multiple-return-annotation error, provided argument synthesis itself
succeeded; the error aborts the run, so no output is produced. -/
theorem c7_ambiguous_rtype (fn_name : String) (fn : FnInfo)
    (element_path ti : List String) (in_class : Bool) (d : String)
    (hdoc : fn.doc = some d) (hne : d ≠ "")
    (herr : strContainsSub (elemPath1 element_path) "Error" = false)
    (hart : fn_name ∉ arithNames)
    (h2 : 2 ≤ (rtypeLines d).length)
    (a : PyArguments) (ti₁ : List String)
    (harg : arguments_stub fn_name fn.params d element_path ti = .ok (a, ti₁)) :
    function_stub fn_name fn element_path ti in_class =
      .error (multiRtypeMsg element_path) := by
  have hrs : returns_stub fn_name d element_path ti₁ =
      .error (multiRtypeMsg element_path) := by
    rcases hl : rtypeLines d with _ | ⟨x, _ | ⟨y, rest⟩⟩
    · rw [hl] at h2; simp at h2
    · rw [hl] at h2; simp at h2
    · unfold returns_stub
      simp [herr, hart, hl]
  unfold function_stub
  rw [hdoc]
  simp only [Option.getD]
  rw [harg]
  have hT : pyTruthy (some d) = true := by simp [pyTruthy, hne]
  rw [hT]
  simp [hrs]

/-! ### Lemmas about association-list lookup -/

theorem lookup_append (k : String) (l₁ l₂ : List (String × PyAst)) :
    List.lookup k (l₁ ++ l₂) =
      (match List.lookup k l₁ with
       | some v => some v
       | none => List.lookup k l₂) := by
  induction l₁ with
  | nil => simp [List.lookup]
  | cons kv rest ih =>
    obtain ⟨k', v'⟩ := kv
    by_cases h : (k == k') = true
    · simp [List.lookup, h]
    · simp only [List.cons_append, List.lookup, h]
      exact ih

theorem lookup_zip_none (k : String) (names : List String) :
    ∀ pts : List PyAst, k ∉ names → List.lookup k (List.zip names pts) = none := by
  induction names with
  | nil =>
    intro pts h
    simp [List.lookup]
  | cons n rest ih =>
    intro pts h
    cases pts with
    | nil => simp [List.lookup]
    | cons t pts' =>
      have hne : ¬ (k == n) = true := by
        simp only [beq_iff_eq]
        intro he
        exact h (he ▸ List.mem_cons_self n rest)
      simp only [List.zip_cons_cons, List.lookup, hne]
      exact ih pts' (fun hm => h (List.mem_cons_of_mem n hm))

/-! ### C1 -/

/-- C1 (counterexample): `__bool__` is present in the builtin table
with the non-`None` entry `([], bool)`; for a reflected member with no
documentation string, synthesis succeeds but the emitted return type is
absent (`None`), not the table's return type `bool` — so the claim that
the emitted return type equals the table entry fails. -/
theorem c1_counterexample :
    BUILTINS "__bool__" = some (some ([], PyAst.name "bool")) ∧
    (function_stub "__bool__" ⟨none, [⟨"self", .positionalOrKeyword, none⟩], false⟩
        ["hifitime", "Duration", "__bool__"] [] true).map (fun r => stmtReturns r.1) =
      .ok none ∧
    (none : Option PyAst) ≠ some (PyAst.name "bool") :=
  ⟨rfl, rfl, by simp⟩

/-- The parameter loop on parameters whose types all come from the
builtin zip: each positional-or-keyword, default-free, non-`self`
parameter is emitted with the zipped table type. -/
theorem processParams_zip_go (ep : List String) (ps : List Param) :
    ∀ (pts : List PyAst) (pre : List (String × PyAst)) (acc : ArgsAcc),
      ps.length = pts.length →
      (ps.map (fun p => p.name)).Nodup →
      (∀ p ∈ ps, List.lookup p.name pre = none) →
      (∀ p ∈ ps, p.kind = ParamKind.positionalOrKeyword ∧ p.default = none ∧
          p.name ≠ "self") →
      processParams ep (pre ++ List.zip (ps.map (fun p => p.name)) pts) [] ps acc =
        .ok { acc with
          args := acc.args ++ (List.zip ps pts).map (fun q => ⟨q.1.name, some q.2⟩),
          defaults := acc.defaults ++ ps.map (fun _ => none) } := by
  induction ps with
  | nil =>
    intro pts pre acc _ _ _ _
    simp [processParams]
  | cons p ps' ih =>
    intro pts pre acc hlen hnd hpre hk
    cases pts with
    | nil => simp at hlen
    | cons t pts' =>
      obtain ⟨hkind, hdef, hself⟩ := hk p (List.mem_cons_self _ _)
      have hl : List.lookup p.name
          (pre ++ List.zip (List.map (fun p => p.name) (p :: ps')) (t :: pts')) = some t := by
        rw [lookup_append, hpre p (List.mem_cons_self _ _)]
        simp [List.lookup]
      have hnd' : (ps'.map (fun p => p.name)).Nodup := (List.nodup_cons.mp hnd).2
      have hnotin : p.name ∉ ps'.map (fun p => p.name) := (List.nodup_cons.mp hnd).1
      have hassoc : pre ++ List.zip (List.map (fun p => p.name) (p :: ps')) (t :: pts') =
          (pre ++ [(p.name, t)]) ++ List.zip (ps'.map (fun p => p.name)) pts' := by
        simp [List.zip_cons_cons, List.append_assoc]
      have hpre' : ∀ q ∈ ps', List.lookup q.name (pre ++ [(p.name, t)]) = none := by
        intro q hq
        rw [lookup_append, hpre q (List.mem_cons_of_mem _ hq)]
        have hqne : ¬ (q.name == p.name) = true := by
          simp only [beq_iff_eq]
          intro he
          exact hnotin (he ▸ List.mem_map_of_mem (fun p => p.name) hq)
        simp [List.lookup, hqne]
      have hrec := ih pts' (pre ++ [(p.name, t)])
        (dispatchParam acc p ⟨p.name, some t⟩ none)
        (by simpa using hlen) hnd' hpre'
        (fun q hq => hk q (List.mem_cons_of_mem _ hq))
      unfold processParams
      rw [hl]
      simp only [List.zip_cons_cons, List.append_assoc, List.singleton_append,
        dispatchParam, hkind] at hrec
      simp [hdef, hrec, dispatchParam, hkind, List.zip_cons_cons, List.append_assoc]

/-- C1 (amended): for a special method present in the builtin table
with a non-`None` `(parameterTypes, returnType)` entry and no
documentation string, on a non-exempt path and an ordinary reflected
signature (`self` followed by positional-or-keyword, default-free
parameters matching the table's arity), synthesis succeeds and the
emitted parameter types equal the table's parameter types exactly — but
the emitted return type annotation is absent, because the table's
return type is only consulted when a documentation string is present;
the claim's statement about the return type does not hold. -/
theorem c1_amended_builtin_fallback (fn_name : String) (pts : List PyAst) (rt : PyAst)
    (ps : List Param) (element_path ti : List String) (in_class : Bool)
    (hb : BUILTINS fn_name = some (some (pts, rt)))
    (hni : fn_name ≠ "__init__")
    (herr : strContainsSub (elemPath1 element_path) "Error" = false)
    (hlen : ps.length = pts.length)
    (hnd : (ps.map (fun p => p.name)).Nodup)
    (hps : ∀ p ∈ ps, p.kind = ParamKind.positionalOrKeyword ∧ p.default = none ∧
        p.name ≠ "self") :
    function_stub fn_name ⟨none, ⟨"self", .positionalOrKeyword, none⟩ :: ps, false⟩
        element_path ti in_class =
      .ok (.functionDef fn_name
        { args := ⟨"self", none⟩ :: (List.zip ps pts).map (fun q => ⟨q.1.name, some q.2⟩),
          defaults := none :: ps.map (fun _ => none) }
        [.ellipsisStmt] [] none, ti) := by
  have hself_notin : "self" ∉ ps.map (fun p => p.name) := by
    intro hm
    obtain ⟨q, hq, hqe⟩ := List.mem_map.mp hm
    exact (hps q hq).2.2 hqe
  have hmp : mergedParams fn_name (⟨"self", .positionalOrKeyword, none⟩ :: ps) =
      ⟨"self", .positionalOrKeyword, none⟩ :: ps := by
    unfold mergedParams
    rw [if_neg hni]
  have hparsed : builtinParsed fn_name (⟨"self", .positionalOrKeyword, none⟩ :: ps) =
      List.zip (ps.map (fun p => p.name)) pts := by
    unfold builtinParsed
    rw [hb]
    simp [dropSelfHead]
  have hsl : List.lookup "self" (List.zip (ps.map (fun p => p.name)) pts) = none :=
    lookup_zip_none _ _ pts hself_notin
  have hstep := processParams_zip_go element_path ps pts []
    (dispatchParam {} ⟨"self", .positionalOrKeyword, none⟩ ⟨"self", none⟩ none)
    hlen hnd (by intro q hq; simp [List.lookup]) hps
  simp only [List.nil_append, dispatchParam] at hstep
  have hpp : processParams element_path (List.zip (ps.map (fun p => p.name)) pts) []
      (⟨"self", .positionalOrKeyword, none⟩ :: ps) {} =
      .ok { args := ⟨"self", none⟩ :: (List.zip ps pts).map (fun q => ⟨q.1.name, some q.2⟩),
            defaults := none :: ps.map (fun _ => none) } := by
    unfold processParams
    simp [hsl, hstep, dispatchParam]
  have hargs : arguments_stub fn_name (⟨"self", .positionalOrKeyword, none⟩ :: ps) ""
      element_path ti =
      .ok ({ args := ⟨"self", none⟩ :: (List.zip ps pts).map (fun q => ⟨q.1.name, some q.2⟩),
             defaults := none :: ps.map (fun _ => none) }, ti) := by
    unfold arguments_stub
    rw [herr]
    simp only [Bool.false_eq_true, if_false, hmp, hb]
    unfold argumentsCore
    rw [hparsed]
    have htl : typeLines "" = [] := rfl
    rw [htl]
    simp only [docTypesLoop]
    rw [hpp]
  unfold function_stub
  simp only [Option.getD]
  rw [hargs]
  simp [pyTruthy]

theorem c1_witness :
    function_stub "__eq__"
        ⟨none, [⟨"self", .positionalOrKeyword, none⟩, ⟨"other", .positionalOrKeyword, none⟩],
          false⟩ ["hifitime", "Duration", "__eq__"] [] true =
      .ok (.functionDef "__eq__"
        { args := [⟨"self", none⟩, ⟨"other", some tyAny⟩], defaults := [none, none] }
        [.ellipsisStmt] [] none, []) := by
  have h := c1_amended_builtin_fallback "__eq__" [tyAny] (PyAst.name "bool")
    [⟨"other", .positionalOrKeyword, none⟩] ["hifitime", "Duration", "__eq__"] [] true
    rfl (by decide) (by decide) rfl (by decide) (by decide)
  simpa using h

theorem c7_witness :
    function_stub "epoch_of" ⟨some ":rtype: int\n:rtype: str", [], false⟩
      ["hifitime", "epoch_of"] [] false =
      .error (multiRtypeMsg ["hifitime", "epoch_of"]) :=
  c7_ambiguous_rtype "epoch_of" ⟨some ":rtype: int\n:rtype: str", [], false⟩
    ["hifitime", "epoch_of"] [] false ":rtype: int\n:rtype: str" rfl (by decide)
    (by decide) (by decide) (by decide) emptyArguments [] rfl

/-! ### Lemmas about the documentation loop and the parameter loop -/

theorem mem_addUnique (l : List String) (s n : String) :
    n ∈ addUnique l s ↔ n ∈ l ∨ n = s := by
  unfold addUnique
  by_cases h : s ∈ l
  · simp only [h, if_true]
    constructor
    · exact fun hm => Or.inl hm
    · rintro (hm | rfl)
      · exact hm
      · exact h
  · simp [h]

/-- Running the `:type` loop on a split line list: the first half runs
first and its state feeds the second half. -/
theorem docTypesLoop_append (ep names : List String) (l₁ l₂ : List (String × String)) :
    ∀ parsed opts ti,
      docTypesLoop ep names (l₁ ++ l₂) parsed opts ti =
        (match docTypesLoop ep names l₁ parsed opts ti with
         | .ok (p, o, t) => docTypesLoop ep names l₂ p o t
         | .error e => .error e) := by
  induction l₁ with
  | nil =>
    intro parsed opts ti
    simp [docTypesLoop]
  | cons nt rest ih =>
    intro parsed opts ti
    obtain ⟨pname, ptext⟩ := nt
    by_cases hm : pname ∈ names
    · by_cases hs : strEndsWith ptext ", optional" = true
      · cases hc : convert_type_from_doc (strDropRight ptext 10) ep ti with
        | error e => simp [docTypesLoop, hm, hs, hc]
        | ok ati => simp [docTypesLoop, hm, hs, hc, ih]
      · cases hc : convert_type_from_doc ptext ep ti with
        | error e => simp [docTypesLoop, hm, hs, hc]
        | ok ati => simp [docTypesLoop, hm, hs, hc, ih]
    · simp [docTypesLoop, hm]

/-- A stale `:type` line anywhere in the list makes the loop fail. -/
theorem docTypesLoop_stale (ep names : List String) :
    ∀ (lines : List (String × String)) parsed opts ti,
      (∃ nt ∈ lines, nt.1 ∉ names) →
      ∃ e, docTypesLoop ep names lines parsed opts ti = .error e := by
  intro lines
  induction lines with
  | nil =>
    intro parsed opts ti h
    obtain ⟨nt, hmem, _⟩ := h
    exact absurd hmem (List.not_mem_nil nt)
  | cons nt₀ rest ih =>
    intro parsed opts ti h
    obtain ⟨pname, ptext⟩ := nt₀
    by_cases hm : pname ∈ names
    · have hrest : ∃ nt ∈ rest, nt.1 ∉ names := by
        obtain ⟨nt, hmem, hns⟩ := h
        cases List.mem_cons.mp hmem with
        | inl he =>
          rw [he] at hns
          exact absurd hm hns
        | inr hr => exact ⟨nt, hr, hns⟩
      by_cases hs : strEndsWith ptext ", optional" = true
      · cases hc : convert_type_from_doc (strDropRight ptext 10) ep ti with
        | error e => exact ⟨e, by simp [docTypesLoop, hm, hs, hc]⟩
        | ok ati =>
          obtain ⟨e, he⟩ := ih (assocSet parsed pname ati.1) (addUnique opts pname) ati.2 hrest
          exact ⟨e, by simp [docTypesLoop, hm, hs, hc, he]⟩
      · cases hc : convert_type_from_doc ptext ep ti with
        | error e => exact ⟨e, by simp [docTypesLoop, hm, hs, hc]⟩
        | ok ati =>
          obtain ⟨e, he⟩ := ih (assocSet parsed pname ati.1) opts ati.2 hrest
          exact ⟨e, by simp [docTypesLoop, hm, hs, hc, he]⟩
    · exact ⟨staleMsg pname ep, by simp [docTypesLoop, hm]⟩

/-- On success the optional-parameter set collected by the loop is the
initial set extended by exactly the names whose hint text carries the
`", optional"` suffix. -/
theorem docTypesLoop_opts (ep names : List String) :
    ∀ (lines : List (String × String)) parsed opts ti parsed' opts' ti',
      docTypesLoop ep names lines parsed opts ti = .ok (parsed', opts', ti') →
      ∀ n, n ∈ opts' ↔ (n ∈ opts ∨ n ∈ lines.filterMap
        (fun nt => if strEndsWith nt.2 ", optional" then some nt.1 else none)) := by
  intro lines
  induction lines with
  | nil =>
    intro parsed opts ti parsed' opts' ti' h n
    unfold docTypesLoop at h
    injection h with h'
    injection h' with h₁ h₂
    injection h₂ with h₃ h₄
    subst h₃
    simp
  | cons nt₀ rest ih =>
    intro parsed opts ti parsed' opts' ti' h n
    obtain ⟨pname, ptext⟩ := nt₀
    by_cases hm : pname ∈ names
    · by_cases hs : strEndsWith ptext ", optional" = true
      · cases hc : convert_type_from_doc (strDropRight ptext 10) ep ti with
        | error e =>
          rw [show docTypesLoop ep names ((pname, ptext) :: rest) parsed opts ti = .error e
            from by simp [docTypesLoop, hm, hs, hc]] at h
          exact absurd h (by simp)
        | ok ati =>
          rw [show docTypesLoop ep names ((pname, ptext) :: rest) parsed opts ti =
              docTypesLoop ep names rest (assocSet parsed pname ati.1)
                (addUnique opts pname) ati.2
            from by simp [docTypesLoop, hm, hs, hc]] at h
          have := ih (assocSet parsed pname ati.1) (addUnique opts pname) ati.2
            parsed' opts' ti' h n
          rw [this, mem_addUnique]
          simp only [List.filterMap_cons, hs, if_true, List.mem_cons]
          constructor
          · rintro ((hn | rfl) | hr)
            · exact Or.inl hn
            · exact Or.inr (Or.inl rfl)
            · exact Or.inr (Or.inr hr)
          · rintro (hn | rfl | hr)
            · exact Or.inl (Or.inl hn)
            · exact Or.inl (Or.inr rfl)
            · exact Or.inr hr
      · cases hc : convert_type_from_doc ptext ep ti with
        | error e =>
          rw [show docTypesLoop ep names ((pname, ptext) :: rest) parsed opts ti = .error e
            from by simp [docTypesLoop, hm, hs, hc]] at h
          exact absurd h (by simp)
        | ok ati =>
          rw [show docTypesLoop ep names ((pname, ptext) :: rest) parsed opts ti =
              docTypesLoop ep names rest (assocSet parsed pname ati.1) opts ati.2
            from by simp [docTypesLoop, hm, hs, hc]] at h
          have := ih (assocSet parsed pname ati.1) opts ati.2 parsed' opts' ti' h n
          rw [this]
          simp [List.filterMap_cons, hs]
    · rw [show docTypesLoop ep names ((pname, ptext) :: rest) parsed opts ti =
          .error (staleMsg pname ep) from by simp [docTypesLoop, hm]] at h
      exact absurd h (by simp)

/-- On success of the parameter loop, every processed parameter has a
default exactly when its name is in the optional set. -/
theorem processParams_ok_iff (ep : List String) (parsed : List (String × PyAst))
    (opts : List String) :
    ∀ (ps : List Param) (acc acc' : ArgsAcc),
      processParams ep parsed opts ps acc = .ok acc' →
      ∀ p ∈ ps, (p.default.isSome ↔ p.name ∈ opts) := by
  intro ps
  induction ps with
  | nil =>
    intro acc acc' h p hp
    exact absurd hp (List.not_mem_nil p)
  | cons p₀ rest ih =>
    intro acc acc' h p hp
    unfold processParams at h
    by_cases hcond : p₀.name ≠ "self" ∧ List.lookup p₀.name parsed = none
    · rw [if_pos hcond] at h
      exact absurd h (by simp)
    · rw [if_neg hcond] at h
      cases hd : p₀.default with
      | some d =>
        simp only [hd] at h
        by_cases ho : p₀.name ∈ opts
        · rw [if_pos ho] at h
          cases List.mem_cons.mp hp with
          | inl he => subst he; simp [hd, ho]
          | inr hr => exact ih _ _ h p hr
        · rw [if_neg ho] at h
          exact absurd h (by simp)
      | none =>
        simp only [hd] at h
        by_cases ho : p₀.name ∈ opts
        · rw [if_pos ho] at h
          exact absurd h (by simp)
        · rw [if_neg ho] at h
          cases List.mem_cons.mp hp with
          | inl he => subst he; simp [hd, ho]
          | inr hr => exact ih _ _ h p hr

/-- When every parameter passes the missing-type check but some
parameter's default presence disagrees with the optional set, the
parameter loop fails with one of the two optionality errors. -/
theorem processParams_mismatch (ep : List String) (parsed : List (String × PyAst))
    (opts : List String) :
    ∀ (ps : List Param) (acc : ArgsAcc),
      (∀ p ∈ ps, p.name = "self" ∨ (List.lookup p.name parsed).isSome = true) →
      (∃ p ∈ ps, ¬(p.default.isSome ↔ p.name ∈ opts)) →
      ∃ pn, processParams ep parsed opts ps acc = .error (optNotFlaggedMsg pn ep) ∨
        processParams ep parsed opts ps acc = .error (optNoDefaultMsg pn ep) := by
  intro ps
  induction ps with
  | nil =>
    intro acc _ hmis
    obtain ⟨p, hp, _⟩ := hmis
    exact absurd hp (List.not_mem_nil p)
  | cons p₀ rest ih =>
    intro acc hdoc hmis
    have hcond : ¬ (p₀.name ≠ "self" ∧ List.lookup p₀.name parsed = none) := by
      rintro ⟨hne, hn⟩
      cases hdoc p₀ (List.mem_cons_self _ _) with
      | inl he => exact hne he
      | inr hs => rw [hn] at hs; simp at hs
    by_cases hagree : p₀.default.isSome ↔ p₀.name ∈ opts
    · have hrest : ∃ p ∈ rest, ¬(p.default.isSome ↔ p.name ∈ opts) := by
        obtain ⟨p, hp, hne⟩ := hmis
        cases List.mem_cons.mp hp with
        | inl he => exact absurd hagree (he ▸ hne)
        | inr hr => exact ⟨p, hr, hne⟩
      cases hd : p₀.default with
      | some d =>
        have ho : p₀.name ∈ opts := hagree.mp (by simp [hd])
        obtain ⟨pn, hpn⟩ := ih (dispatchParam acc p₀ ⟨p₀.name, List.lookup p₀.name parsed⟩
            (some (.constant d))) (fun p hp => hdoc p (List.mem_cons_of_mem _ hp)) hrest
        refine ⟨pn, ?_⟩
        have hrw : processParams ep parsed opts (p₀ :: rest) acc =
            processParams ep parsed opts rest (dispatchParam acc p₀
              ⟨p₀.name, List.lookup p₀.name parsed⟩ (some (.constant d))) := by
          conv_lhs => unfold processParams
          rw [if_neg hcond]
          simp only [hd]
          rw [if_pos ho]
        rw [hrw]
        exact hpn
      | none =>
        have ho : p₀.name ∉ opts := fun hin => by simp [hd] at hagree; exact hagree hin
        obtain ⟨pn, hpn⟩ := ih (dispatchParam acc p₀ ⟨p₀.name, List.lookup p₀.name parsed⟩
            none) (fun p hp => hdoc p (List.mem_cons_of_mem _ hp)) hrest
        refine ⟨pn, ?_⟩
        have hrw : processParams ep parsed opts (p₀ :: rest) acc =
            processParams ep parsed opts rest (dispatchParam acc p₀
              ⟨p₀.name, List.lookup p₀.name parsed⟩ none) := by
          conv_lhs => unfold processParams
          rw [if_neg hcond]
          simp only [hd]
          rw [if_neg ho]
        rw [hrw]
        exact hpn
    · cases hd : p₀.default with
      | some d =>
        have ho : p₀.name ∉ opts := by
          intro hin
          exact hagree (by simp [hd, hin])
        refine ⟨p₀.name, Or.inl ?_⟩
        unfold processParams
        rw [if_neg hcond]
        simp only [hd]
        rw [if_neg ho]
      | none =>
        have ho : p₀.name ∈ opts := by
          by_contra hnin
          exact hagree (by simp [hd, hnin])
        refine ⟨p₀.name, Or.inr ?_⟩
        unfold processParams
        rw [if_neg hcond]
        simp only [hd]
        rw [if_pos ho]

/-- Outside the two exemptions, `arguments_stub` is the documentation
loop followed by the parameter loop over the merged parameters. -/
theorem arguments_stub_eq_core (callable_name : String) (rp : List Param) (doc : String)
    (element_path ti : List String)
    (herr : strContainsSub (elemPath1 element_path) "Error" = false)
    (hart : callable_name ∉ arithNames) :
    arguments_stub callable_name rp doc element_path ti =
      argumentsCore doc element_path (mergedParams callable_name rp)
        (builtinParsed callable_name (mergedParams callable_name rp)) ti := by
  unfold arguments_stub
  rw [herr]
  simp only [Bool.false_eq_true, if_false]
  cases hB : BUILTINS callable_name with
  | none => simp [hart, builtinParsed, hB]
  | some o =>
    cases o with
    | none => simp [hart, builtinParsed, hB]
    | some bt => simp [builtinParsed, hB]

/-- Inverting a successful `argumentsCore` run. -/
theorem argumentsCore_ok (doc : String) (ep : List String) (real : List Param)
    (parsed0 : List (String × PyAst)) (ti : List String) (a : PyArguments)
    (ti' : List String)
    (h : argumentsCore doc ep real parsed0 ti = .ok (a, ti')) :
    ∃ parsed opts ti₁ acc,
      docTypesLoop ep (real.map (fun p => p.name)) (typeLines doc) parsed0 [] ti =
        .ok (parsed, opts, ti₁) ∧
      processParams ep parsed opts real {} = .ok acc ∧ ti' = ti₁ := by
  unfold argumentsCore at h
  cases hd : docTypesLoop ep (real.map (fun p => p.name)) (typeLines doc) parsed0 [] ti with
  | error e => rw [hd] at h; exact absurd h (by simp)
  | ok triple =>
    obtain ⟨parsed, opts, ti₁⟩ := triple
    rw [hd] at h
    cases hp : processParams ep parsed opts real {} with
    | error e =>
      simp only [hp] at h
      exact absurd h (by simp)
    | ok acc =>
      simp only [hp] at h
      injection h with h'
      injection h' with h₁ h₂
      exact ⟨parsed, opts, ti₁, acc, rfl, hp, h₂.symm⟩

/-- A failing documentation loop fails `argumentsCore` with the same
error. -/
theorem argumentsCore_error_docLoop (doc : String) (ep : List String) (real : List Param)
    (parsed0 : List (String × PyAst)) (ti : List String) (e : String)
    (h : docTypesLoop ep (real.map (fun p => p.name)) (typeLines doc) parsed0 [] ti =
      .error e) : argumentsCore doc ep real parsed0 ti = .error e := by
  unfold argumentsCore
  rw [h]

/-- A failing parameter loop fails `argumentsCore` with the same
error. -/
theorem argumentsCore_error_params (doc : String) (ep : List String) (real : List Param)
    (parsed0 : List (String × PyAst)) (ti : List String) (parsed : List (String × PyAst))
    (opts ti₁ : List String) (e : String)
    (hd : docTypesLoop ep (real.map (fun p => p.name)) (typeLines doc) parsed0 [] ti =
      .ok (parsed, opts, ti₁))
    (hp : processParams ep parsed opts real {} = .error e) :
    argumentsCore doc ep real parsed0 ti = .error e := by
  unfold argumentsCore
  rw [hd]
  simp [hp]

/-! ### C3 -/

/-- C3: optionality invariant.  Outside the two exemption paths (where
no parameter at all is synthesized): (a) whenever `arguments_stub`
succeeds, every merged parameter has a default in the real signature
exactly when some `:type` line for it carried the `", optional"`
suffix; (b) whenever the documentation loop itself succeeds and every
merged parameter passes the missing-type check, any disagreement in
either direction makes `arguments_stub` fail with one of the two
optionality-mismatch errors, so no output is emitted. -/
theorem c3_optionality_invariant (callable_name : String) (rp : List Param) (doc : String)
    (element_path ti : List String)
    (herr : strContainsSub (elemPath1 element_path) "Error" = false)
    (hart : callable_name ∉ arithNames) :
    (∀ a ti', arguments_stub callable_name rp doc element_path ti = .ok (a, ti') →
      ∀ p ∈ mergedParams callable_name rp,
        (p.default.isSome ↔ p.name ∈ optionalNames doc)) ∧
    (∀ parsed opts ti₁,
      docTypesLoop element_path ((mergedParams callable_name rp).map (fun p => p.name))
          (typeLines doc) (builtinParsed callable_name (mergedParams callable_name rp))
          [] ti = .ok (parsed, opts, ti₁) →
      (∀ p ∈ mergedParams callable_name rp,
        p.name = "self" ∨ (List.lookup p.name parsed).isSome = true) →
      (∃ p ∈ mergedParams callable_name rp,
        ¬(p.default.isSome ↔ p.name ∈ optionalNames doc)) →
      ∃ pn, arguments_stub callable_name rp doc element_path ti =
          .error (optNotFlaggedMsg pn element_path) ∨
        arguments_stub callable_name rp doc element_path ti =
          .error (optNoDefaultMsg pn element_path)) := by
  have hcore := arguments_stub_eq_core callable_name rp doc element_path ti herr hart
  constructor
  · intro a ti' hok p hp
    rw [hcore] at hok
    obtain ⟨parsed, opts, ti₁, acc, hd, hpp, _⟩ :=
      argumentsCore_ok doc element_path (mergedParams callable_name rp)
        (builtinParsed callable_name (mergedParams callable_name rp)) ti a ti' hok
    have hiff := processParams_ok_iff element_path parsed opts
      (mergedParams callable_name rp) {} acc hpp p hp
    have hopts := docTypesLoop_opts element_path
      ((mergedParams callable_name rp).map (fun p => p.name)) (typeLines doc)
      (builtinParsed callable_name (mergedParams callable_name rp)) [] ti
      parsed opts ti₁ hd p.name
    rw [hiff, hopts]
    simp [optionalNames]
  · intro parsed opts ti₁ hd hdoc hmis
    have hopts := docTypesLoop_opts element_path
      ((mergedParams callable_name rp).map (fun p => p.name)) (typeLines doc)
      (builtinParsed callable_name (mergedParams callable_name rp)) [] ti
      parsed opts ti₁ hd
    have hmis' : ∃ p ∈ mergedParams callable_name rp,
        ¬(p.default.isSome ↔ p.name ∈ opts) := by
      obtain ⟨p, hp, hne⟩ := hmis
      refine ⟨p, hp, fun hiff => hne ?_⟩
      rw [hiff, hopts p.name]
      simp [optionalNames]
    obtain ⟨pn, hpn⟩ := processParams_mismatch element_path parsed opts
      (mergedParams callable_name rp) {} hdoc hmis'
    refine ⟨pn, ?_⟩
    rw [hcore]
    cases hpn with
    | inl h => exact Or.inl (argumentsCore_error_params doc element_path _ _ ti
        parsed opts ti₁ _ hd h)
    | inr h => exact Or.inr (argumentsCore_error_params doc element_path _ _ ti
        parsed opts ti₁ _ hd h)

theorem c3_witness :
    ∃ pn, arguments_stub "with_frac" [⟨"x", .positionalOrKeyword, some "1"⟩] ":type x: int"
        ["hifitime", "with_frac"] [] = .error (optNotFlaggedMsg pn ["hifitime", "with_frac"]) ∨
      arguments_stub "with_frac" [⟨"x", .positionalOrKeyword, some "1"⟩] ":type x: int"
        ["hifitime", "with_frac"] [] = .error (optNoDefaultMsg pn ["hifitime", "with_frac"]) :=
  (c3_optionality_invariant "with_frac" [⟨"x", .positionalOrKeyword, some "1"⟩] ":type x: int"
      ["hifitime", "with_frac"] [] (by decide) (by decide)).2
    [("x", PyAst.name "int")] [] [] rfl (by decide) (by decide)

/-! ### C6 -/

/-- C6 (counterexample): inside a class whose name contains `"Error"`,
a `:type` line naming a parameter absent from the real signature does
not raise any error — `arguments_stub` short-circuits to an empty
argument list — so the claim fails as universally stated over
callables. -/
theorem c6_counterexample :
    typeLines ":type foo: int" = [("foo", "int")] ∧
    arguments_stub "__init__" [] ":type foo: int"
      ["hifitime", "HifitimeError", "__init__"] [] = .ok (emptyArguments, []) :=
  ⟨rfl, rfl⟩

/-- C6 (amended): for a callable that is not exempt (its element path's
second component does not contain `"Error"` and its name is not one of
the eight arithmetic dunder methods), a `:type` line whose parameter
name is absent from the merged real signature always makes
`arguments_stub` fail with a fatal error; and when the preceding
`:type` lines process cleanly, the error is precisely the
stale-documentation error naming the offending declaration path. -/
theorem c6_stale_doc (callable_name : String) (rp : List Param) (doc : String)
    (element_path ti : List String)
    (herr : strContainsSub (elemPath1 element_path) "Error" = false)
    (hart : callable_name ∉ arithNames) (n t : String)
    (hstale : n ∉ (mergedParams callable_name rp).map (fun p => p.name)) :
    ((n, t) ∈ typeLines doc →
      ∃ e, arguments_stub callable_name rp doc element_path ti = .error e) ∧
    (∀ pre rest parsed opts ti₁,
      typeLines doc = pre ++ (n, t) :: rest →
      docTypesLoop element_path ((mergedParams callable_name rp).map (fun p => p.name))
          pre (builtinParsed callable_name (mergedParams callable_name rp)) [] ti =
        .ok (parsed, opts, ti₁) →
      arguments_stub callable_name rp doc element_path ti =
        .error (staleMsg n element_path)) := by
  have hcore := arguments_stub_eq_core callable_name rp doc element_path ti herr hart
  constructor
  · intro hmem
    obtain ⟨e, he⟩ := docTypesLoop_stale element_path
      ((mergedParams callable_name rp).map (fun p => p.name)) (typeLines doc)
      (builtinParsed callable_name (mergedParams callable_name rp)) [] ti
      ⟨(n, t), hmem, hstale⟩
    exact ⟨e, by rw [hcore]; exact argumentsCore_error_docLoop _ _ _ _ _ _ he⟩
  · intro pre rest parsed opts ti₁ hsplit hpre
    rw [hcore]
    apply argumentsCore_error_docLoop
    rw [hsplit, docTypesLoop_append, hpre]
    simp [docTypesLoop, hstale]

theorem c6_witness :
    arguments_stub "with_frac" [⟨"x", .positionalOrKeyword, none⟩] ":type foo: int"
      ["hifitime", "with_frac"] [] = .error (staleMsg "foo" ["hifitime", "with_frac"]) :=
  (c6_stale_doc "with_frac" [⟨"x", .positionalOrKeyword, none⟩] ":type foo: int"
      ["hifitime", "with_frac"] [] (by decide) (by decide) "foo" "int" (by decide)).2
    [] [] [] [] [] rfl rfl

/-! ### Lemmas about the string order and the insertion sort -/

theorem charListLe_total (a : List Char) : ∀ b : List Char,
    charListLe a b = true ∨ charListLe b a = true := by
  induction a with
  | nil => intro b; exact Or.inl rfl
  | cons x xs ih =>
    intro b
    cases b with
    | nil => exact Or.inr rfl
    | cons y ys =>
      rcases lt_trichotomy x y with hxy | hxy | hxy
      · left
        simp [charListLe, hxy]
      · subst hxy
        rcases ih ys with h | h
        · left
          simp [charListLe, lt_irrefl, h]
        · right
          simp [charListLe, lt_irrefl, h]
      · right
        simp [charListLe, hxy]

theorem charListLe_antisymm (a : List Char) : ∀ b : List Char,
    charListLe a b = true → charListLe b a = true → a = b := by
  induction a with
  | nil =>
    intro b hab hba
    cases b with
    | nil => rfl
    | cons y ys => simp [charListLe] at hba
  | cons x xs ih =>
    intro b hab hba
    cases b with
    | nil => simp [charListLe] at hab
    | cons y ys =>
      rcases lt_trichotomy x y with hxy | hxy | hxy
      · simp [charListLe, hxy, asymm hxy] at hba
      · subst hxy
        have hab' : charListLe xs ys = true := by
          simpa [charListLe, lt_irrefl] using hab
        have hba' : charListLe ys xs = true := by
          simpa [charListLe, lt_irrefl] using hba
        rw [ih ys hab' hba']
      · simp [charListLe, hxy, asymm hxy] at hab

theorem charListLe_trans (a : List Char) : ∀ b c : List Char,
    charListLe a b = true → charListLe b c = true → charListLe a c = true := by
  induction a with
  | nil => intro b c _ _; rfl
  | cons x xs ih =>
    intro b c hab hbc
    cases b with
    | nil => simp [charListLe] at hab
    | cons y ys =>
      cases c with
      | nil => simp [charListLe] at hbc
      | cons z zs =>
        rcases lt_trichotomy x y with hxy | hxy | hxy
        · rcases lt_trichotomy y z with hyz | hyz | hyz
          · simp [charListLe, lt_trans hxy hyz]
          · subst hyz
            simp [charListLe, hxy]
          · simp [charListLe, hyz, asymm hyz] at hbc
        · subst hxy
          rcases lt_trichotomy x z with hxz | hxz | hxz
          · simp [charListLe, hxz]
          · subst hxz
            simp only [charListLe, lt_irrefl, if_false] at hab hbc ⊢
            exact ih ys zs hab hbc
          · simp [charListLe, hxz, asymm hxz] at hbc
        · simp [charListLe, hxy, asymm hxy] at hab

theorem string_eq_of_toList_eq (a b : String) (h : a.toList = b.toList) : a = b := by
  cases a with
  | mk da =>
    cases b with
    | mk db =>
      exact congrArg String.mk h

theorem strLeB_total (a b : String) : strLeB a b = true ∨ strLeB b a = true :=
  charListLe_total a.toList b.toList

theorem strLeB_antisymm (a b : String) (hab : strLeB a b = true)
    (hba : strLeB b a = true) : a = b :=
  string_eq_of_toList_eq a b (charListLe_antisymm a.toList b.toList hab hba)

theorem strLeB_trans (a b c : String) (hab : strLeB a b = true)
    (hbc : strLeB b c = true) : strLeB a c = true :=
  charListLe_trans a.toList b.toList c.toList hab hbc

instance : IsAntisymm String (fun a b => strLeB a b = true) := ⟨strLeB_antisymm⟩

theorem mem_insortStr (x z : String) : ∀ l : List String,
    z ∈ insortStr x l ↔ z = x ∨ z ∈ l := by
  intro l
  induction l with
  | nil => simp [insortStr]
  | cons y ys ih =>
    by_cases h : strLeB x y = true
    · simp [insortStr, h, List.mem_cons]
    · simp [insortStr, h, List.mem_cons, ih]
      tauto

theorem insortStr_perm (x : String) : ∀ l : List String,
    (insortStr x l).Perm (x :: l) := by
  intro l
  induction l with
  | nil => simp [insortStr]
  | cons y ys ih =>
    by_cases h : strLeB x y = true
    · simp [insortStr, h]
    · simp only [insortStr, h, if_false]
      exact (List.Perm.cons y ih).trans (List.Perm.swap x y ys)

theorem insortStr_sorted (x : String) : ∀ l : List String,
    List.Sorted (fun a b => strLeB a b = true) l →
    List.Sorted (fun a b => strLeB a b = true) (insortStr x l) := by
  intro l
  induction l with
  | nil =>
    intro _
    simp [insortStr, List.Sorted]
  | cons y ys ih =>
    intro hs
    rw [List.sorted_cons] at hs
    obtain ⟨hy, hys⟩ := hs
    by_cases h : strLeB x y = true
    · rw [show insortStr x (y :: ys) = x :: y :: ys from by simp [insortStr, h]]
      rw [List.sorted_cons]
      constructor
      · intro b hb
        cases List.mem_cons.mp hb with
        | inl he => exact he ▸ h
        | inr hr => exact strLeB_trans x y b h (hy b hr)
      · rw [List.sorted_cons]
        exact ⟨hy, hys⟩
    · rw [show insortStr x (y :: ys) = y :: insortStr x ys from by simp [insortStr, h]]
      rw [List.sorted_cons]
      constructor
      · intro b hb
        cases (mem_insortStr x b ys).mp hb with
        | inl he =>
          subst he
          cases strLeB_total b y with
          | inl hby => exact absurd hby h
          | inr hyb => exact hyb
        | inr hr => exact hy b hr
      · exact ih hys

theorem sortStrings_sorted (l : List String) :
    List.Sorted (fun a b => strLeB a b = true) (sortStrings l) := by
  induction l with
  | nil => simp [sortStrings, List.Sorted]
  | cons x xs ih => exact insortStr_sorted x (sortStrings xs) ih

theorem sortStrings_perm (l : List String) : (sortStrings l).Perm l := by
  induction l with
  | nil => simp [sortStrings]
  | cons x xs ih =>
    exact (insortStr_perm x (sortStrings xs)).trans (List.Perm.cons x ih)

theorem sortStrings_eq_of_perm_sorted (l imps : List String) (hp : l.Perm imps)
    (hs : List.Sorted (fun a b => strLeB a b = true) imps) : sortStrings l = imps :=
  List.eq_of_perm_of_sorted ((sortStrings_perm l).trans hp) (sortStrings_sorted l) hs

/-! ### Shape lemmas for the emitted statements -/

theorem function_stub_shape (fn_name : String) (fn : FnInfo) (element_path ti : List String)
    (in_class : Bool) (st : PyStmt) (ti' : List String)
    (h : function_stub fn_name fn element_path ti in_class = .ok (st, ti')) :
    ∃ args body dec ret, st = .functionDef fn_name args body dec ret := by
  unfold function_stub at h
  cases ha : arguments_stub fn_name fn.params (fn.doc.getD "") element_path ti with
  | error e =>
    rw [ha] at h
    exact absurd h (by simp)
  | ok p1 =>
    obtain ⟨args, ti₁⟩ := p1
    simp only [ha] at h
    cases hr : (if pyTruthy fn.doc = true then
        returns_stub fn_name (fn.doc.getD "") element_path ti₁
      else .ok (none, ti₁)) with
    | error e =>
      rw [hr] at h
      exact absurd h (by simp)
    | ok p2 =>
      obtain ⟨ret, ti₂⟩ := p2
      simp only [hr] at h
      injection h with h'
      injection h' with h₁ h₂
      exact ⟨args, _, _, ret, h₁.symm⟩

theorem build_doc_comment_shape (d : String) (e : PyStmt)
    (h : build_doc_comment d = some e) : ∃ s, e = .exprStmt (.constant s) := by
  unfold build_doc_comment at h
  by_cases ht : strTrim (joinSep "\n" (((strLines d).map strTrim).filter
      (fun l => !(strStartsWith l ":type" || strStartsWith l ":rtype")))) = ""
  · rw [if_pos ht] at h
    exact absurd h (by simp)
  · rw [if_neg ht] at h
    injection h with h'
    exact ⟨_, h'.symm⟩

theorem docCommentOpt_shape (doc : Option String) (e : PyStmt)
    (h : docCommentOpt doc = some e) : ∃ s, e = .exprStmt (.constant s) := by
  cases doc with
  | none => exact absurd h (by simp [docCommentOpt])
  | some d =>
    simp only [docCommentOpt] at h
    by_cases hd : d = ""
    · rw [if_pos hd] at h
      exact absurd h (by simp)
    · rw [if_neg hd] at h
      exact build_doc_comment_shape d e h

theorem data_descriptor_stub_shape (nm : String) (doc : Option String)
    (element_path ti : List String) (sts : List PyStmt) (ti' : List String)
    (h : data_descriptor_stub nm doc element_path ti = .ok (sts, ti')) :
    ∀ x ∈ sts, isAttrStmt x = true := by
  cases doc with
  | none =>
    simp only [data_descriptor_stub] at h
    injection h with h'
    injection h' with h₁ h₂
    subst h₁
    intro x hx
    simp at hx
    subst hx
    rfl
  | some d =>
    simp only [data_descriptor_stub] at h
    cases hr : returns_stub nm d element_path ti with
    | error e =>
      rw [hr] at h
      exact absurd h (by simp)
    | ok p1 =>
      obtain ⟨ann, ti₁⟩ := p1
      simp only [hr] at h
      cases hl : returnLines d with
      | nil =>
        simp only [hl] at h
        injection h with h'
        injection h' with h₁ h₂
        subst h₁
        intro x hx
        simp at hx
        subst hx
        rfl
      | cons t rest =>
        cases rest with
        | nil =>
          simp only [hl] at h
          injection h with h'
          injection h' with h₁ h₂
          subst h₁
          intro x hx
          cases List.mem_cons.mp hx with
          | inl he => subst he; rfl
          | inr hr' =>
            by_cases ht : t = ""
            · simp [ht] at hr'
            · simp only [ht, if_false] at hr'
              cases hbc : build_doc_comment t with
              | none =>
                rw [hbc] at hr'
                simp at hr'
              | some eS =>
                rw [hbc] at hr'
                simp at hr'
                subst hr'
                obtain ⟨s, hs⟩ := build_doc_comment_shape t x hbc
                rw [hs]
                rfl
        | cons t₂ rest₂ =>
          simp only [hl] at h
          exact absurd h (by simp)

theorem class_stubs_shape (cls_name : String) (cls : ClsInfo) (element_path ti : List String)
    (st : PyStmt) (ti' : List String)
    (h : class_stubs cls_name cls element_path ti = .ok (st, ti')) :
    ∃ dec body, st = .classDef cls_name dec body := by
  unfold class_stubs at h
  cases hw : classMembersLoop cls_name cls element_path cls.members {} ti with
  | error e =>
    rw [hw] at h
    exact absurd h (by simp)
  | ok p =>
    obtain ⟨acc, ti₁⟩ := p
    simp only [hw] at h
    injection h with h'
    injection h' with h₁ h₂
    exact ⟨_, _, h₁.symm⟩

/-! ### Lemmas about the module walk (for C5) -/

theorem keptClassNames_cons_skip (n : String) (v : ModMember)
    (rest : List (String × ModMember)) (hk : keptModuleName n = false) :
    keptClassNames ((n, v) :: rest) = keptClassNames rest := by
  cases v <;> simp [keptClassNames, hk]

theorem keptFunctionNames_cons_skip (n : String) (v : ModMember)
    (rest : List (String × ModMember)) (hk : keptModuleName n = false) :
    keptFunctionNames ((n, v) :: rest) = keptFunctionNames rest := by
  cases v <;> simp [keptFunctionNames, hk]

theorem moduleMembersLoop_names (modName : String) :
    ∀ (mems : List (String × ModMember)) (classes functions : List PyStmt)
      (ti : List String) (cf : List PyStmt × List PyStmt × List String),
      moduleMembersLoop modName mems classes functions ti = .ok cf →
      cf.1.map stubName = classes.map stubName ++ keptClassNames mems ∧
      cf.2.1.map stubName = functions.map stubName ++ keptFunctionNames mems := by
  intro mems
  induction mems with
  | nil =>
    intro classes functions ti cf h
    simp only [moduleMembersLoop] at h
    injection h with h'
    subst h'
    simp [keptClassNames, keptFunctionNames]
  | cons nv rest ih =>
    intro classes functions ti cf h
    obtain ⟨n, v⟩ := nv
    simp only [moduleMembersLoop] at h
    by_cases h1 : strStartsWith n "__" = true
    · rw [if_pos h1] at h
      have hk : keptModuleName n = false := by simp [keptModuleName, h1]
      have hr := ih classes functions ti cf h
      rw [keptClassNames_cons_skip n v rest hk, keptFunctionNames_cons_skip n v rest hk]
      exact hr
    · rw [if_neg h1] at h
      by_cases h2 : strStartsWith n "DoraStatus" = true
      · rw [if_pos h2] at h
        have hk : keptModuleName n = false := by simp [keptModuleName, h2]
        have hr := ih classes functions ti cf h
        rw [keptClassNames_cons_skip n v rest hk, keptFunctionNames_cons_skip n v rest hk]
        exact hr
      · rw [if_neg h2] at h
        have hk : keptModuleName n = true := by simp [keptModuleName, h1, h2]
        cases v with
        | cls c =>
          cases hc : class_stubs n c [modName, n] ti with
          | error e =>
            simp only [hc] at h
            exact absurd h (by simp)
          | ok p =>
            obtain ⟨st, ti₁⟩ := p
            simp only [hc] at h
            obtain ⟨dec, body, hst⟩ := class_stubs_shape n c [modName, n] ti st ti₁ hc
            have hr := ih (classes ++ [st]) functions ti₁ cf h
            rw [hr.1, hr.2]
            constructor
            · simp [keptClassNames, hk, hst, stubName]
            · simp [keptFunctionNames, hk]
        | builtinFn fn =>
          cases hc : function_stub n fn [modName, n] ti false with
          | error e =>
            simp only [hc] at h
            exact absurd h (by simp)
          | ok p =>
            obtain ⟨st, ti₁⟩ := p
            simp only [hc] at h
            obtain ⟨args, body, dec, ret, hst⟩ :=
              function_stub_shape n fn [modName, n] ti false st ti₁ hc
            have hr := ih classes (functions ++ [st]) ti₁ cf h
            rw [hr.1, hr.2]
            constructor
            · simp [keptClassNames, hk]
            · simp [keptFunctionNames, hk, hst, stubName]
        | other =>
          have hr := ih classes functions ti cf h
          rw [hr.1, hr.2]
          constructor
          · simp [keptClassNames, hk]
          · simp [keptFunctionNames, hk]

/-! ### C5 -/

/-- C5: synthesis output structure is deterministic.  Any successful
run produces a body that is exactly a sorted import block followed by
the class stubs and then the function stubs; the import block is sorted
under the string order and is the unique sorted arrangement of the
collected import set (any permutation of it — any set-iteration order —
sorts to the same list); and the class and function stub names follow
reflection enumeration order.  Since the embedding is a pure function
of the reflected module state, two runs over the same state are
definitionally identical, so the rendered text is byte-identical. -/
theorem c5_deterministic_output (m : ModInfo) (r : PyModule)
    (h : module_stubs m = .ok r) :
    ∃ imps classes functions,
      r.body = imps.map PyStmt.importStmt ++ classes ++ functions ∧
      List.Sorted (fun a b => strLeB a b = true) imps ∧
      (∀ l, l.Perm imps → sortStrings l = imps) ∧
      classes.map stubName = includedClassNames m ∧
      functions.map stubName = includedFunctionNames m := by
  unfold module_stubs at h
  cases hw : moduleMembersLoop m.name m.members [] [] ["typing"] with
  | error e =>
    rw [hw] at h
    exact absurd h (by simp)
  | ok cf =>
    obtain ⟨classes, functions, ti⟩ := cf
    simp only [hw] at h
    injection h with h'
    have hnames := moduleMembersLoop_names m.name m.members [] [] ["typing"]
      (classes, functions, ti) hw
    refine ⟨sortStrings ti, classes, functions, ?_, sortStrings_sorted ti, ?_, ?_, ?_⟩
    · rw [← h']
    · intro l hl
      exact sortStrings_eq_of_perm_sorted l (sortStrings ti) hl (sortStrings_sorted ti)
    · simpa [includedClassNames] using hnames.1
    · simpa [includedFunctionNames] using hnames.2

def c5demoCls : ClsInfo :=
  ⟨some "A duration.\n:type seconds: float\n:rtype: None",
    some [⟨"seconds", .positionalOrKeyword, none⟩],
    [("__init__", .routine ⟨none, [], false⟩),
     ("center", .dataDescriptor (some ":rtype: zoneinfo.ZoneInfo")),
     ("total", .routine ⟨some "Total.\n:rtype: float",
       [⟨"self", .positionalOrKeyword, none⟩], false⟩)]⟩

def c5demoMod : ModInfo :=
  ⟨"hifitime", [("Duration", .cls c5demoCls), ("__doc__", .other),
    ("utc", .builtinFn ⟨some ":rtype: aaa.bbb.T", [], false⟩)]⟩

def c5demoOut : PyModule :=
  ⟨[.importStmt "aaa.bbb", .importStmt "typing", .importStmt "zoneinfo",
    .classDef "Duration" [typingFinal]
      [.exprStmt (.constant "A duration."),
       .annAssign "center" (.attribute (.name "zoneinfo") "ZoneInfo") none,
       .functionDef "__init__"
         { args := [⟨"self", none⟩, ⟨"seconds", some (.name "float")⟩], defaults := [none] }
         [.exprStmt (.constant "A duration.")] [] (some (.name "None")),
       .functionDef "total" { args := [⟨"self", none⟩], defaults := [none] }
         [.exprStmt (.constant "Total.")] [] (some (.name "float"))],
    .functionDef "utc" emptyArguments [.ellipsisStmt] []
      (some (.attribute (.attribute (.name "aaa") "bbb") "T"))]⟩

theorem c5_witness :
    ∃ imps classes functions,
      c5demoOut.body = imps.map PyStmt.importStmt ++ classes ++ functions ∧
      List.Sorted (fun a b => strLeB a b = true) imps ∧
      (∀ l, l.Perm imps → sortStrings l = imps) ∧
      classes.map stubName = includedClassNames c5demoMod ∧
      functions.map stubName = includedFunctionNames c5demoMod :=
  c5_deterministic_output c5demoMod c5demoOut rfl

/-! ### Lemmas about the class-member loop (for C9) -/

theorem classMembersLoop_inv (cls_name : String) (cls : ClsInfo) (ep : List String) :
    ∀ (mems : List (String × ClsValue)) (acc : ClsAcc) (ti : List String)
      (r : ClsAcc × List String),
      classMembersLoop cls_name cls ep mems acc ti = .ok r →
      (∀ x ∈ acc.attributes, isAttrStmt x = true) →
      (∀ x ∈ acc.methods, isMethodStmt x = true) →
      (∀ x ∈ acc.magic, isMagicStmt x = true) →
      (∀ x ∈ acc.constants, isConstStmt x = true) →
      ((∀ x ∈ r.1.attributes, isAttrStmt x = true) ∧
       (∀ x ∈ r.1.methods, isMethodStmt x = true) ∧
       (∀ x ∈ r.1.magic, isMagicStmt x = true) ∧
       (∀ x ∈ r.1.constants, isConstStmt x = true)) := by
  intro mems
  induction mems with
  | nil =>
    intro acc ti r h ha hm hg hc
    simp only [classMembersLoop] at h
    injection h with h'
    subst h'
    exact ⟨ha, hm, hg, hc⟩
  | cons nv rest ih =>
    intro acc ti r h ha hm hg hc
    obtain ⟨n, v⟩ := nv
    simp only [classMembersLoop] at h
    by_cases hinit : n = "__init__" ∧ ¬ strContainsSub cls_name "Error" = true
    · rw [if_pos hinit] at h
      cases hsig : cls.ctorSig with
      | none =>
        rw [hsig] at h
        exact ih acc ti r h ha hm hg hc
      | some sig =>
        simp only [hsig] at h
        cases hf : function_stub n ⟨cls.doc, sig, false⟩ (ep ++ [n]) ti true with
        | error e =>
          rw [hf] at h
          exact absurd h (by simp)
        | ok p =>
          obtain ⟨st, ti₁⟩ := p
          simp only [hf] at h
          obtain ⟨args, body, dec, ret, hst⟩ :=
            function_stub_shape n ⟨cls.doc, sig, false⟩ (ep ++ [n]) ti true st ti₁ hf
          refine ih _ ti₁ r h ha ?_ hg hc
          intro x hx
          cases List.mem_cons.mp hx with
          | inl he =>
            subst he
            rw [hst]
            simp [isMethodStmt, hinit.1]
          | inr hr => exact hm x hr
    · rw [if_neg hinit] at h
      by_cases hskip : (isObjectDefault v || builtinIsNone n) = true
      · rw [if_pos hskip] at h
        exact ih acc ti r h ha hm hg hc
      · rw [if_neg hskip] at h
        cases v with
        | objectDefault => exact ih acc ti r h ha hm hg hc
        | noneVal => exact ih acc ti r h ha hm hg hc
        | dataDescriptor d' =>
          cases hds : data_descriptor_stub n d' (ep ++ [n]) ti with
          | error e =>
            simp only [hds] at h
            exact absurd h (by simp)
          | ok p =>
            obtain ⟨sts, ti₁⟩ := p
            simp only [hds] at h
            refine ih _ ti₁ r h ?_ hm hg hc
            intro x hx
            cases List.mem_append.mp hx with
            | inl hl => exact ha x hl
            | inr hr => exact data_descriptor_stub_shape n d' (ep ++ [n]) ti sts ti₁ hds x hr
        | routine fn =>
          cases hf : function_stub n fn (ep ++ [n]) ti true with
          | error e =>
            simp only [hf] at h
            exact absurd h (by simp)
          | ok p =>
            obtain ⟨st, ti₁⟩ := p
            simp only [hf] at h
            obtain ⟨args, body, dec, ret, hst⟩ :=
              function_stub_shape n fn (ep ++ [n]) ti true st ti₁ hf
            by_cases hss : strStartsWith n "__" = true
            · rw [if_pos hss] at h
              refine ih _ ti₁ r h ha hm ?_ hc
              intro x hx
              cases List.mem_append.mp hx with
              | inl hl => exact hg x hl
              | inr hr =>
                simp at hr
                subst hr
                rw [hst]
                simp [isMagicStmt, hss]
            · rw [if_neg hss] at h
              refine ih _ ti₁ r h ha ?_ hg hc
              intro x hx
              cases List.mem_append.mp hx with
              | inl hl => exact hm x hl
              | inr hr =>
                simp at hr
                subst hr
                rw [hst]
                simp [isMethodStmt, hss]
        | matchArgsVal vs =>
          by_cases hn : n = "__match_args__"
          · simp only [if_pos hn] at h
            refine ih _ ti r h ha hm hg ?_
            intro x hx
            cases List.mem_append.mp hx with
            | inl hl => exact hc x hl
            | inr hr =>
              simp at hr
              subst hr
              rfl
          · simp only [if_neg hn] at h
            cases hct : concatenated_path_to_type "tuple" ep ti with
            | error e =>
              simp only [hct] at h
              exact absurd h (by simp)
            | ok p =>
              obtain ⟨ann, ti₁⟩ := p
              simp only [hct] at h
              refine ih _ ti₁ r h ha hm hg ?_
              intro x hx
              cases List.mem_append.mp hx with
              | inl hl => exact hc x hl
              | inr hr =>
                simp at hr
                subst hr
                rfl
        | constVal cn =>
          cases hct : concatenated_path_to_type cn ep ti with
          | error e =>
            simp only [hct] at h
            exact absurd h (by simp)
          | ok p =>
            obtain ⟨ann, ti₁⟩ := p
            simp only [hct] at h
            refine ih _ ti₁ r h ha hm hg ?_
            intro x hx
            cases List.mem_append.mp hx with
            | inl hl => exact hc x hl
            | inr hr =>
              simp at hr
              subst hr
              rfl

/-! ### C9 -/

/-- C9: every emitted class body is, in this fixed order, the
documentation comment (when present), then the attribute stubs, then
the method stubs, then the special/operator-method stubs, then the
constant stubs; and a class whose body would otherwise be empty is
rendered with an explicit `Ellipsis` placeholder instead. -/
theorem c9_class_body_order (cls_name : String) (cls : ClsInfo)
    (element_path ti : List String) (st : PyStmt) (ti' : List String)
    (h : class_stubs cls_name cls element_path ti = .ok (st, ti')) :
    ∃ d a me mg co,
      st = .classDef cls_name [typingFinal]
        (if (d ++ a ++ me ++ mg ++ co : List PyStmt).isEmpty then [.ellipsisStmt]
         else d ++ a ++ me ++ mg ++ co) ∧
      (d = [] ∨ ∃ s, d = [.exprStmt (.constant s)]) ∧
      (∀ x ∈ a, isAttrStmt x = true) ∧ (∀ x ∈ me, isMethodStmt x = true) ∧
      (∀ x ∈ mg, isMagicStmt x = true) ∧ (∀ x ∈ co, isConstStmt x = true) := by
  unfold class_stubs at h
  cases hw : classMembersLoop cls_name cls element_path cls.members {} ti with
  | error e =>
    rw [hw] at h
    exact absurd h (by simp)
  | ok p =>
    obtain ⟨acc, ti₁⟩ := p
    simp only [hw] at h
    injection h with h'
    injection h' with h₁ h₂
    obtain ⟨hai, hmi, hgi, hci⟩ := classMembersLoop_inv cls_name cls element_path
      cls.members {} ti (acc, ti₁) hw (by intro x hx; simp at hx)
      (by intro x hx; simp at hx) (by intro x hx; simp at hx) (by intro x hx; simp at hx)
    refine ⟨(docCommentOpt cls.doc).toList, acc.attributes, acc.methods, acc.magic,
      acc.constants, ?_, ?_, hai, hmi, hgi, hci⟩
    · rw [← h₁]
    · cases hdc : docCommentOpt cls.doc with
      | none => exact Or.inl rfl
      | some e =>
        obtain ⟨s, hs⟩ := docCommentOpt_shape cls.doc e hdc
        exact Or.inr ⟨s, by rw [hs]; rfl⟩

def c9demoCls : ClsInfo :=
  ⟨some "An epoch.", some [],
    [("__eq__", .routine ⟨none, [⟨"self", .positionalOrKeyword, none⟩], false⟩),
     ("__init__", .objectDefault),
     ("leap", .dataDescriptor none),
     ("strftime", .routine ⟨some "Fmt.\n:type fmt: str\n:rtype: str",
       [⟨"self", .positionalOrKeyword, none⟩, ⟨"fmt", .positionalOrKeyword, none⟩],
       false⟩),
     ("MAX", .constVal "Epoch")]⟩

theorem c9_witness :
    ∃ d a me mg co,
      PyStmt.classDef "Epoch" [typingFinal]
          [.exprStmt (.constant "An epoch."),
           .annAssign "leap" tyAny none,
           .functionDef "__init__" { args := [⟨"self", none⟩] } [.exprStmt (.constant "An epoch.")]
             [] (some (.name "None")),
           .functionDef "strftime"
             { args := [⟨"self", none⟩, ⟨"fmt", some (.name "str")⟩], defaults := [none, none] }
             [.exprStmt (.constant "Fmt.")] [] (some (.name "str")),
           .functionDef "__eq__" { args := [⟨"self", none⟩], defaults := [none] }
             [.ellipsisStmt] [] none,
           .annAssign "MAX" (.name "Epoch") (some .ellipsisLit)] =
        .classDef "Epoch" [typingFinal]
          (if (d ++ a ++ me ++ mg ++ co : List PyStmt).isEmpty then [.ellipsisStmt]
           else d ++ a ++ me ++ mg ++ co) ∧
      (d = [] ∨ ∃ s, d = [.exprStmt (.constant s)]) ∧
      (∀ x ∈ a, isAttrStmt x = true) ∧ (∀ x ∈ me, isMethodStmt x = true) ∧
      (∀ x ∈ mg, isMagicStmt x = true) ∧ (∀ x ∈ co, isConstStmt x = true) :=
  c9_class_body_order "Epoch" c9demoCls ["hifitime", "Epoch"] ["typing"] _ ["typing"] rfl

end GenerateStubs
